import Mathlib

/-!
# juju: the `juju-upgrade-mongo` plugin and the Azure environ

A shallow embedding of `cmd/plugins/juju-upgrade-mongo/upgrade.go` and of
`environs/azure/environ.go`, and the properties of the upgrade coordinator
and of the batch operations of the Azure provider proved over it.

Conventions of the embedding:
* a Go `error` result is an `Option GoError`, `none` being `nil`;
* a Go value-and-error result is an `Except GoError _`;
* a Go slice is a `List` (the `nil` slice is `[]`);
* a function that can panic returns an `Option`, `none` being the panic;
* what the program does to the outside (processes started, requests sent,
  text printed) is returned next to the result, as a list in program order;
* types, constants and functions of packages that lie outside these two
  files are parameters (`Externals`, the fields of the environment
  structures), so every theorem holds whatever they are.
-/

set_option autoImplicit false
set_option maxRecDepth 100000

/-- Go error values: one made outside the modelled code, or one wrapped by
`errors.Annotate` / `errors.Annotatef` / `fmt.Errorf` around a cause. -/
inductive GoError where
  | New (msg : String)
  | Annotate (cause : GoError) (message : String)
  | Annotatef (cause : GoError) (format : String) (args : List String)
  | Errorf (format : String) (cause : GoError)
  deriving DecidableEq, Repr

namespace UpgradeMongo

/-! ## text/template, the fragment the plugin uses -/

/-- A parsed template: literal text, a field of the data (`.Name`), or a
registered function applied to a field (`fn .Name`, `.Name | fn`). -/
inductive Node where
  | text (s : String)
  | field (name : String)
  | call (fn : String) (name : String)
  deriving DecidableEq, Repr

/-- Splits the inside of an action into its blank-separated words. -/
def words : List Char → List Char → List (List Char)
  | [], cur => if cur = [] then [] else [cur]
  | c :: rest, cur =>
    if c = ' ' then
      (if cur = [] then words rest [] else cur :: words rest [])
    else words rest (cur ++ [c])

/-- Parses the inside of one action, given the names of the registered
functions; a function that is not registered is a parse error, as in Go. -/
def parseAction (funcs : List String) (inner : List Char) : Option Node :=
  match words inner [] with
  | [ '.' :: name ] => some (Node.field (String.mk name))
  | [ fn, '.' :: name ] =>
    if String.mk fn ∈ funcs then some (Node.call (String.mk fn) (String.mk name)) else none
  | [ '.' :: name, ['|'], fn ] =>
    if String.mk fn ∈ funcs then some (Node.call (String.mk fn) (String.mk name)) else none
  | _ => none

/-- Adds a text node unless the text is empty. -/
def pushText (acc : List Node) (cur : List Char) : List Node :=
  if cur = [] then acc else acc ++ [Node.text (String.mk cur)]

/-- The state of the template lexer: in text, in text after one left
brace, in an action, in an action after one right brace. -/
inductive Mode where
  | text
  | textBrace
  | action
  | actionBrace
  deriving DecidableEq, Repr

/-- The lexer and parser of a template: text up to the left delimiter (two
left braces), an action up to the right delimiter (two right braces).
`none` is a parse error (an action that is not closed or not understood). -/
def parseChars (funcs : List String) :
    List Char → Mode → List Char → List Node → Option (List Node)
  | [], Mode.text, cur, acc => some (pushText acc cur)
  | [], Mode.textBrace, cur, acc => some (pushText acc (cur ++ ['{']))
  | [], Mode.action, _, _ => none
  | [], Mode.actionBrace, _, _ => none
  | c :: rest, Mode.text, cur, acc =>
    if c = '{' then parseChars funcs rest Mode.textBrace cur acc
    else parseChars funcs rest Mode.text (cur ++ [c]) acc
  | c :: rest, Mode.textBrace, cur, acc =>
    if c = '{' then parseChars funcs rest Mode.action [] (pushText acc cur)
    else parseChars funcs rest Mode.text (cur ++ ['{', c]) acc
  | c :: rest, Mode.action, cur, acc =>
    if c = '}' then parseChars funcs rest Mode.actionBrace cur acc
    else parseChars funcs rest Mode.action (cur ++ [c]) acc
  | c :: rest, Mode.actionBrace, cur, acc =>
    if c = '}' then
      match parseAction funcs cur with
      | some n => parseChars funcs rest Mode.text [] (acc ++ [n])
      | none => none
    else parseChars funcs rest Mode.action (cur ++ ['}', c]) acc

/-- The function map of a template: `template.FuncMap`. -/
abbrev FuncMap := List (String × (String → String))

/-- A template with its functions: `template.New("").Funcs(m)` then `Parse`. -/
structure Template where
  funcs : FuncMap
  nodes : List Node

/-- The call `t.Parse(templ)` on a template that has the functions `funcs`. -/
def Parse (funcs : FuncMap) (templ : String) : Except GoError Template :=
  match parseChars (funcs.map Prod.fst) templ.data Mode.text [] [] with
  | some nodes => Except.ok { funcs := funcs, nodes := nodes }
  | none => Except.error (GoError.New "template: parse error")

/-- The helper `template.Must`: panics on an error. -/
def Must {α : Type} : Except GoError α → Option α
  | Except.ok a => some a
  | Except.error _ => none

/-- The lookup of a function of the map by its name. -/
def lookupFunc : FuncMap → String → Option (String → String)
  | [], _ => none
  | (n, f) :: rest, name => if n = name then some f else lookupFunc rest name

/-! ## The plugin: data -/

/-- The constant `jujuUpgradeScript` (line 123): the jujud of the machine
called with `upgrade-mongo`, the series and the machine tag. The braces of
the delimiters around `.MachineNumber` and `.Series` are written as the
character codes 7b and 7d. -/
def jujuUpgradeScript : String :=
  "\n/var/lib/juju/tools/machine-\x7b\x7b.MachineNumber\x7d\x7d/jujud upgrade-mongo --series \x7b\x7b.Series\x7d\x7d --machinetag 'machine-\x7b\x7b.MachineNumber\x7d\x7d'\n"

/-- The data the template is executed on (line 127). -/
structure upgradeScriptParams where
  MachineNumber : String
  Series : String
  deriving DecidableEq, Repr

/-- The field of the data that an action names; an unknown field is an
execution error in Go. -/
def upgradeScriptParams.field (p : upgradeScriptParams) (name : String) : Option String :=
  if name = "MachineNumber" then some p.MachineNumber
  else if name = "Series" then some p.Series
  else none

/-- The nodes of a template written one after the other to the buffer; on
the first failing node the execution stops with what was written so far. -/
def execNodes (funcs : FuncMap) (p : upgradeScriptParams) :
    List Node → String → String × Option GoError
  | [], buf => (buf, none)
  | Node.text s :: rest, buf => execNodes funcs p rest (buf ++ s)
  | Node.field name :: rest, buf =>
    match p.field name with
    | some v => execNodes funcs p rest (buf ++ v)
    | none => (buf, some (GoError.New "template: can't evaluate field"))
  | Node.call fn name :: rest, buf =>
    match lookupFunc funcs fn, p.field name with
    | some f, some v => execNodes funcs p rest (buf ++ f v)
    | _, _ => (buf, some (GoError.New "template: error calling function"))

/-- The call `tmpl.Execute(&buf, data)` on an empty buffer: the text in the
buffer afterwards, and the error. -/
def Execute (t : Template) (p : upgradeScriptParams) : String × Option GoError :=
  execNodes t.funcs p t.nodes ""

/-- A member of the replica set as the API reports it (`params.HAMember`,
declared outside this file); the fields are those the plugin reads. -/
structure HAMember (Address : Type) where
  Tag : String
  PublicAddress : Address
  Series : String

/-- The answer of `MongoUpgradeMode` (`params.MongoUpgradeResults`, declared
outside this file); the fields are those the plugin reads. -/
structure MongoUpgradeResults (Address : Type) where
  Master : HAMember Address
  Members : List (HAMember Address)

/-- The interface `MongoUpgradeClient` (line 61): what `Close` returns and
what `MongoUpgradeMode` answers for a version. -/
structure MongoUpgradeClient (Version Address : Type) where
  Close : Option GoError
  MongoUpgradeMode : Version → Except GoError (MongoUpgradeResults Address)

/-- The struct `migratable` (line 164). -/
structure migratable (MachineTag Address : Type) where
  machine : MachineTag
  ip : Address
  result : Int
  series : String

/-- The struct `upgradeMongoParams` (line 171). -/
structure upgradeMongoParams (MachineTag Address : Type) where
  master : migratable MachineTag Address
  machines : List (migratable MachineTag Address)

/-- A process to start: `exec.Command(name, args...)`. -/
structure ExecCommand where
  name : String
  args : List String
  deriving DecidableEq, Repr

/-- What running a process does: the error of `cmd.Run()` and the bytes it
writes to its standard output and standard error. -/
structure CmdOutcome where
  err : Option GoError
  stdout : String
  stderr : String

/-- A YAML document as `goyaml.Unmarshal` hands it over in an `interface{}`;
a map is the list of its entries in the order in which `range` visits them
in this run (Go leaves that order open). -/
inductive YamlValue where
  | null
  | str (s : String)
  | int (i : Int)
  | bool (b : Bool)
  | seq (items : List YamlValue)
  | map (entries : List (YamlValue × YamlValue))

/-- What lies outside the file: the packages `mongo`, `names`, `network`,
`utils`, `highavailability`, `goyaml`, and the processes that `os/exec`
starts. `Version`, `MachineTag`, `Address` and `Root` are the types
`mongo.Version`, `names.MachineTag`, `network.Address` and the API
connection. -/
structure Externals (Version MachineTag Address Root : Type) where
  Mongo30wt : Version
  NewMachineTag : String → MachineTag
  Id : MachineTag → String
  Value : Address → String
  ShQuote : String → String
  NewClient : Root → MongoUpgradeClient Version Address
  Unmarshal : String → Except GoError (List (String × YamlValue))
  cmdRun : ExecCommand → CmdOutcome

/-- The struct `upgradeMongoCommand` (line 66), with what its embedded
`EnvCommandBase` and `Log` answer: `NewAPIRoot()` and `Log.Start(ctx)`. -/
structure upgradeMongoCommand (Version Address Root : Type) where
  NewAPIRoot : Except GoError Root
  LogStart : Option GoError
  isLocal : Bool
  haClient : Option (MongoUpgradeClient Version Address)

/-! ## The plugin: operations -/

section Operations

variable {Version MachineTag Address Root : Type}

/-- The process that `runViaJujuSSH` starts (line 91): `ssh` with the user
and machine, and the script quoted for `sudo -n bash -c`. -/
def sshCommand (x : Externals Version MachineTag Address Root) (machine script : String) :
    ExecCommand :=
  { name := "ssh", args := ["ubuntu@" ++ machine, "sudo -n bash -c " ++ x.ShQuote script] }

/-- What one call of `runViaJujuSSH` leaves behind: its error, the process
it ran, the line it printed, and the two buffers afterwards. -/
structure SSHResult where
  err : Option GoError
  executed : ExecCommand
  printed : String
  stdout : String
  stderr : String

/-- The function `runViaJujuSSH` (line 90): runs the script on the remote
machine; the process writes to the two buffers; a failure is annotated with
the content of the standard error buffer. -/
def runViaJujuSSH (x : Externals Version MachineTag Address Root)
    (machine script : String) (stdout stderr : String) : SSHResult :=
  let cmd := sshCommand x machine script
  let out := x.cmdRun cmd
  let stdout2 := stdout ++ out.stdout
  let stderr2 := stderr ++ out.stderr
  match out.err with
  | some err =>
    { err := some (GoError.Annotatef err "ssh command failed: (%q)" [stderr2]),
      executed := cmd, printed := script, stdout := stdout2, stderr := stderr2 }
  | none =>
    { err := none, executed := cmd, printed := script, stdout := stdout2, stderr := stderr2 }

/-- The errors of a read from a buffer: `io.EOF` or another one. -/
inductive ReadError where
  | EOF
  | other
  deriving DecidableEq, Repr

/-- The bytes up to and including the first delimiter, and the rest. -/
def splitAtDelim (delim : Char) : List Char → Option (List Char × List Char)
  | [] => none
  | c :: rest =>
    if c = delim then some ([c], rest)
    else
      match splitAtDelim delim rest with
      | some (line, tl) => some (c :: line, tl)
      | none => none

/-- The method `ReadString` of `bytes.Buffer`: the data up to and including
the delimiter; without a delimiter, all the data and `io.EOF`. Returns the
line, the error and the unread rest of the buffer. -/
def ReadString (buf : String) (delim : Char) : String × Option ReadError × String :=
  match splitAtDelim delim buf.data with
  | some (line, rest) => (String.mk line, none, String.mk rest)
  | none => (buf, some ReadError.EOF, "")

/-- What happens around the goroutine `bufferPrinter`, in the order of one
run: the remote process writes to the buffer, the timer of 500 ms fires, or
a value arrives on `closer`. -/
inductive Step where
  | write (data : String)
  | tick
  | closer
  deriving DecidableEq, Repr

/-- The function `bufferPrinter` (line 102) over one run: the arguments of
its calls of `fmt.Print`, in order, given the unread content of the buffer.
On `closer` it returns; on a tick it reads one line and prints it when the
error is nil or `io.EOF`, and returns on any other error. -/
def bufferPrinter : List Step → String → List String
  | [], _ => []
  | Step.write data :: rest, stdout => bufferPrinter rest (stdout ++ data)
  | Step.closer :: _, _ => []
  | Step.tick :: rest, stdout =>
    match ReadString stdout (Char.ofNat 10) with
    | (line, err, stdout2) =>
      let out := if err = none ∨ err = some ReadError.EOF then [line] else []
      if err ≠ none ∧ err ≠ some ReadError.EOF then out
      else out ++ bufferPrinter rest stdout2

/-- The method `getHAClient` (line 176). -/
def getHAClient (x : Externals Version MachineTag Address Root)
    (c : upgradeMongoCommand Version Address Root) :
    Except GoError (MongoUpgradeClient Version Address) :=
  match c.haClient with
  | some cl => Except.ok cl
  | none =>
    match c.NewAPIRoot with
    | Except.error err => Except.error (GoError.Annotate err "cannot get API connection")
    | Except.ok root => Except.ok (x.NewClient root)

/-- The member of the API as a `migratable` (lines 204 and 210). -/
def toMigratable (x : Externals Version MachineTag Address Root) (member : HAMember Address) :
    migratable MachineTag Address :=
  { ip := member.PublicAddress,
    machine := x.NewMachineTag member.Tag,
    result := 0,
    series := member.Series }

/-- The loop of `migratableMachines` (line 209): appends one `migratable`
per member. -/
def appendMembers (x : Externals Version MachineTag Address Root) :
    List (HAMember Address) → List (migratable MachineTag Address) →
      List (migratable MachineTag Address)
  | [], machines => machines
  | member :: rest, machines => appendMembers x rest (machines ++ [toMigratable x member])

/-- The method `migratableMachines` (line 190), for the target version
`x.Mongo30wt`. -/
def migratableMachines (x : Externals Version MachineTag Address Root)
    (c : upgradeMongoCommand Version Address Root) :
    Except GoError (upgradeMongoParams MachineTag Address) :=
  match getHAClient x c with
  | Except.error err => Except.error err
  | Except.ok haClient =>
    match haClient.MongoUpgradeMode x.Mongo30wt with
    | Except.error err => Except.error (GoError.Annotate err "cannot enter mongo upgrade mode")
    | Except.ok results =>
      Except.ok
        { master := toMigratable x results.Master,
          machines := appendMembers x results.Members [] }

/-- The function `waitForNotified` (line 261). -/
def waitForNotified (_addrs : List String) : Option GoError := none

/-- The function `stopAllMongos` (line 267). -/
def stopAllMongos (_addrs : List String) : Option GoError := none

/-- The function `recreateReplicas` (line 273). -/
def recreateReplicas (_master : String) (_addrs : List String) : Option GoError := none

/-- What one call of `Run` leaves behind: the error it returns, the
processes it ran and the lines it printed, in order. -/
structure RunResult where
  err : Option GoError
  executed : List ExecCommand
  printed : List String

/-- The function `mustParseTemplate` (line 82); `none` is the panic of
`template.Must`. -/
def mustParseTemplate (x : Externals Version MachineTag Address Root) (templ : String) :
    Option Template :=
  Must (Parse [("shquote", x.ShQuote)] templ)

/-- The text of the remote command for a master (lines 147 to 156): the
template parsed with `shquote` registered and executed on the id and series
of the master; the error of `Execute` is not looked at. `none` is the panic
of `template.Must`. -/
def renderUpgradeCommand (x : Externals Version MachineTag Address Root)
    (master : migratable MachineTag Address) : Option String :=
  match Must (Parse [("shquote", x.ShQuote)] jujuUpgradeScript) with
  | none => none
  | some tmpl =>
    let upgradeParams : upgradeScriptParams :=
      { MachineNumber := x.Id master.machine, Series := master.series }
    some (Execute tmpl upgradeParams).1

/-- The method `Run` (line 132). `none` is a panic. The goroutine
`bufferPrinter` started at line 145 only copies the captured output to the
terminal and is modelled by `bufferPrinter`. -/
def Run (x : Externals Version MachineTag Address Root)
    (c : upgradeMongoCommand Version Address Root) : Option RunResult :=
  match c.LogStart with
  | some err => some { err := some err, executed := [], printed := [] }
  | none =>
    match migratableMachines x c with
    | Except.error err =>
      some { err := some (GoError.Annotate err "cannot determine status servers"),
             executed := [], printed := [] }
    | Except.ok migratables =>
      match renderUpgradeCommand x migratables.master with
      | none => none
      | some script =>
        let r := runViaJujuSSH x (x.Value migratables.master.ip) script "" ""
        match r.err with
        | some err =>
          some { err := some (GoError.Annotate err "migration to mongo 3 unsuccesful"),
                 executed := [r.executed], printed := [r.printed] }
        | none => some { err := none, executed := [r.executed], printed := [r.printed] }

/-- The type assertion `v.(string)`; `none` is its panic. -/
def YamlValue.asString : YamlValue → Option String
  | YamlValue.str s => some s
  | _ => none

/-- The type assertion `v.(map[interface{}]interface{})`; `none` is its
panic. -/
def YamlValue.asMap : YamlValue → Option (List (YamlValue × YamlValue))
  | YamlValue.map entries => some entries
  | _ => none

/-- The index expression `m[key]` with a string key on a map of
`interface{}`: the value, or `none` when the key is absent. -/
def mapIndex : List (YamlValue × YamlValue) → String → Option YamlValue
  | [], _ => none
  | (YamlValue.str k, v) :: rest, key => if k = key then some v else mapIndex rest key
  | _ :: rest, key => mapIndex rest key

/-- The index expression `status[key]` on a map with string keys. -/
def statusIndex : List (String × YamlValue) → String → Option YamlValue
  | [], _ => none
  | (k, v) :: rest, key => if k = key then some v else statusIndex rest key

/-- The loop of `migratableMachinesFromStatus` (line 238) over the machines
in the order of the iteration; `none` is the panic of a type assertion. The
zero value of a Go type is `default`. -/
def statusLoop [Inhabited Address] (x : Externals Version MachineTag Address Root) :
    List (YamlValue × YamlValue) → upgradeMongoParams MachineTag Address →
      Option (upgradeMongoParams MachineTag Address)
  | [], upgradeParams => some upgradeParams
  | (id, machine) :: rest, upgradeParams =>
    match machine.asMap with
    | none => none
    | some m =>
      match mapIndex m "state-server-member-status" with
      | none => statusLoop x rest upgradeParams
      | some hasVote =>
        match id.asString, ((mapIndex m "series").getD YamlValue.null).asString,
            hasVote.asString with
        | some ids, some series, some vote =>
          let mi : migratable MachineTag Address :=
            { machine := x.NewMachineTag ids, ip := default, result := 0, series := series }
          if vote = "has-vote" then
            statusLoop x rest { upgradeParams with master := mi }
          else
            statusLoop x rest
              { upgradeParams with machines := upgradeParams.machines ++ [mi] }
        | _, _, _ => none

/-- The process `juju status --format yaml` (line 224). -/
def statusCommand : ExecCommand :=
  { name := "juju", args := ["status", "--format", "yaml"] }

/-- The function `migratableMachinesFromStatus` (line 222); `none` is a
panic, an error is the `nil, err` result. -/
def migratableMachinesFromStatus [Inhabited MachineTag] [Inhabited Address]
    (x : Externals Version MachineTag Address Root) :
    Option (Except GoError (upgradeMongoParams MachineTag Address)) :=
  let out := x.cmdRun statusCommand
  match out.err with
  | some err => some (Except.error (GoError.Annotate err "cannot determine juju state servers"))
  | none =>
    match x.Unmarshal out.stdout with
    | Except.error err => some (Except.error (GoError.Annotate err "cannot unmarshall status"))
    | Except.ok status =>
      match ((statusIndex status "machines").getD YamlValue.null).asMap with
      | none => none
      | some machines =>
        match statusLoop x machines
            { master := { machine := default, ip := default, result := 0, series := "" },
              machines := [] } with
        | none => none
        | some upgradeParams => some (Except.ok upgradeParams)

/-- What the loop of `migratableMachinesFromStatus` makes of one machine of
the document: `none` when a type assertion panics on it, `some none` when it
is no state server, else whether its member status is "has-vote" and its
`migratable`. -/
def readMachine [Inhabited Address] (x : Externals Version MachineTag Address Root)
    (entry : YamlValue × YamlValue) : Option (Option (Bool × migratable MachineTag Address)) :=
  match entry.2.asMap with
  | none => none
  | some m =>
    match mapIndex m "state-server-member-status" with
    | none => some none
    | some hasVote =>
      match entry.1.asString, ((mapIndex m "series").getD YamlValue.null).asString,
          hasVote.asString with
      | some ids, some series, some vote =>
        some (some (decide (vote = "has-vote"),
          { machine := x.NewMachineTag ids, ip := default, result := 0, series := series }))
      | _, _, _ => none

/-- The state servers of the document whose member status is "has-vote",
in the order of the iteration. -/
def hasVoteMachines [Inhabited Address] (x : Externals Version MachineTag Address Root)
    (machines : List (YamlValue × YamlValue)) : List (migratable MachineTag Address) :=
  machines.filterMap (fun entry =>
    match readMachine x entry with
    | some (some (true, mi)) => some mi
    | _ => none)

/-- The state servers of the document with another member status, in the
order of the iteration. -/
def otherStateServers [Inhabited Address] (x : Externals Version MachineTag Address Root)
    (machines : List (YamlValue × YamlValue)) : List (migratable MachineTag Address) :=
  machines.filterMap (fun entry =>
    match readMachine x entry with
    | some (some (false, mi)) => some mi
    | _ => none)

/-- The zero value of `migratable`. -/
def zeroMigratable [Inhabited MachineTag] [Inhabited Address] : migratable MachineTag Address :=
  { machine := default, ip := default, result := 0, series := "" }

/-- The text of the remote command written out: the constant parts of
`jujuUpgradeScript` with the machine number and the series put in as they
are. -/
def upgradeScriptText (machineNumber series : String) : String :=
  "\n/var/lib/juju/tools/machine-" ++ machineNumber ++ "/jujud upgrade-mongo --series " ++
    series ++ " --machinetag 'machine-" ++ machineNumber ++ "'\n"

/-- The address a process of `ssh` is sent to: its first argument. -/
def ExecCommand.target (e : ExecCommand) : Option String := e.args.head?

/-- The number of processes of a run that were sent to the given user and
address. -/
def executionsAgainst (executed : List ExecCommand) (addr : String) : Nat :=
  (executed.filter (fun e => decide (e.target = some ("ubuntu@" ++ addr)))).length

end Operations

/-! ## Concrete runs -/

/-- The quoting of `utils.ShQuote` on characters: each single quote becomes
a closing quote, a double-quoted single quote and an opening quote. -/
def shQuoteChars : List Char → List Char
  | [] => []
  | c :: rest =>
    if c = Char.ofNat 39 then "'\"'\"'".data ++ shQuoteChars rest else c :: shQuoteChars rest

/-- The function `utils.ShQuote` for the concrete runs: the text between
single quotes, the single quotes inside it quoted. -/
def ShQuote (s : String) : String := "'" ++ String.mk (shQuoteChars s.data) ++ "'"

/-- A version of the engine for the concrete runs. -/
structure MongoVersion where
  Major : Nat
  Minor : Nat
  StorageEngine : String
  deriving DecidableEq, Repr

/-- The version 3.0 on wiredTiger for the concrete runs. -/
def Mongo30wt : MongoVersion := { Major := 3, Minor := 0, StorageEngine := "wiredTiger" }

/-- A remote executor on which every command succeeds silently, except
those sent to the addresses listed, which fail. -/
def cmdRunFailingAt (failing : List String) (e : ExecCommand) : CmdOutcome :=
  if failing.any (fun addr => decide (e.target = some ("ubuntu@" ++ addr))) then
    { err := some (GoError.New "exit status 1"), stdout := "", stderr := "failed" }
  else { err := none, stdout := "", stderr := "" }

/-- The outside for the concrete runs: tags and addresses are strings, the
target version and the remote executor are given. -/
def concreteExternals (target : MongoVersion) (cmdRun : ExecCommand → CmdOutcome) :
    Externals MongoVersion String String Unit :=
  { Mongo30wt := target,
    NewMachineTag := fun id => id,
    Id := fun tag => tag,
    Value := fun addr => addr,
    ShQuote := ShQuote,
    NewClient := fun _ =>
      { Close := none, MongoUpgradeMode := fun _ => Except.error (GoError.New "no client") },
    Unmarshal := fun _ => Except.error (GoError.New "no document"),
    cmdRun := cmdRun }

/-- The outside for the runs of the status command: the command succeeds
and its output unmarshals to the given document. -/
def statusExternals (status : List (String × YamlValue)) :
    Externals MongoVersion String String Unit :=
  { concreteExternals Mongo30wt (cmdRunFailingAt []) with
    Unmarshal := fun _ => Except.ok status }

/-- A machine of a status document: its id, its member status if it is a
state server, and its series. -/
def statusMachine (id : String) (memberStatus : Option String) (series : String) :
    YamlValue × YamlValue :=
  (YamlValue.str id,
    YamlValue.map
      ((match memberStatus with
        | some st => [(YamlValue.str "state-server-member-status", YamlValue.str st)]
        | none => []) ++
       [(YamlValue.str "series", YamlValue.str series)]))

/-- A status document with the given machines. -/
def statusDocument (machines : List (YamlValue × YamlValue)) : List (String × YamlValue) :=
  [("environment", YamlValue.str "test"), ("machines", YamlValue.map machines)]

/-- The machines of a document with two "has-vote" state servers, one
"no-vote" state server and one machine that is no state server. -/
def mixedMachines : List (YamlValue × YamlValue) :=
  [statusMachine "0" (some "has-vote") "trusty",
   statusMachine "1" (some "no-vote") "trusty",
   statusMachine "2" none "trusty",
   statusMachine "3" (some "has-vote") "xenial"]

/-- A client that answers every version with the given master and members. -/
def fixedClient (master : HAMember String) (members : List (HAMember String)) :
    MongoUpgradeClient MongoVersion String :=
  { Close := none,
    MongoUpgradeMode := fun _ => Except.ok { Master := master, Members := members } }

/-- A command whose logging starts and whose client is the given one. -/
def concreteCommand (client : MongoUpgradeClient MongoVersion String) :
    upgradeMongoCommand MongoVersion String Unit :=
  { NewAPIRoot := Except.ok (), LogStart := none, isLocal := false, haClient := some client }

/-- The machine 0 at 10.0.0.1. -/
def machine0 : HAMember String := { Tag := "0", PublicAddress := "10.0.0.1", Series := "trusty" }

/-- The machine 1 at 10.0.0.2. -/
def machine1 : HAMember String := { Tag := "1", PublicAddress := "10.0.0.2", Series := "trusty" }

/-- The machine 2 at the address of machine 0. -/
def machine2 : HAMember String := { Tag := "2", PublicAddress := "10.0.0.1", Series := "trusty" }

/-- The machine 0 with a series that holds text of the template. -/
def overlapMachineA : HAMember String :=
  { Tag := "0", PublicAddress := "10.0.0.1",
    Series := "x --machinetag 'machine-0/jujud upgrade-mongo --series y --machinetag 'machine-0/jujud upgrade-mongo --series x" }

/-- A machine whose id holds text of the template, with the series y. -/
def overlapMachineB : HAMember String :=
  { Tag := "0/jujud upgrade-mongo --series x --machinetag 'machine-0",
    PublicAddress := "10.0.0.2", Series := "y" }

/-- The `migratable` of a machine of the concrete runs. -/
def concreteMigratable (member : HAMember String) : migratable String String :=
  { machine := member.Tag, ip := member.PublicAddress, result := 0, series := member.Series }

/-- The topology of the concrete runs: a master and the other machines. -/
def concreteTopology (master : HAMember String) (members : List (HAMember String)) :
    upgradeMongoParams String String :=
  { master := concreteMigratable master, machines := members.map concreteMigratable }

end UpgradeMongo

namespace Azure

/-! ## The Azure environ: data -/

/-- The request `gwacl.DestroyHostedServiceRequest`. -/
structure DestroyHostedServiceRequest where
  ServiceName : String
  deriving DecidableEq, Repr

/-- The request `gwacl.ListSpecificHostedServicesRequest`. -/
structure ListSpecificHostedServicesRequest where
  ServiceNames : List String
  deriving DecidableEq, Repr

/-- The request `gwacl.ListPrefixedHostedServicesRequest`. -/
structure ListPrefixedHostedServicesRequest where
  ServiceNamePrefix : String
  deriving DecidableEq, Repr

/-- The request `gwacl.DeleteAllBlobsRequest`. -/
structure DeleteAllBlobsRequest where
  Container : String
  deriving DecidableEq, Repr

/-- What the environ does to the outside, in program order: the temporary
certificate file written and deleted, and the requests sent to the
management API and to the storage API. -/
inductive Effect where
  | newTempCertFile (certData : String)
  | certFileDelete (path : String)
  | DestroyHostedService (request : DestroyHostedServiceRequest)
  | ListSpecificHostedServices (request : ListSpecificHostedServicesRequest)
  | ListPrefixedHostedServices (request : ListPrefixedHostedServicesRequest)
  | DeleteAllBlobs (request : DeleteAllBlobsRequest)
  deriving DecidableEq, Repr

/-- The session `gwacl.ManagementAPI`: each request answers from the state
`σ` of the Azure account and leaves a new state. `Descriptor` is
`gwacl.HostedServiceDescriptor`. -/
structure ManagementAPI (σ Descriptor : Type) where
  DestroyHostedService : DestroyHostedServiceRequest → σ → Option GoError × σ
  ListSpecificHostedServices :
    ListSpecificHostedServicesRequest → σ → Except GoError (List Descriptor) × σ
  ListPrefixedHostedServices :
    ListPrefixedHostedServicesRequest → σ → Except GoError (List Descriptor) × σ

/-- The struct `azureManagementContext` (line 306); a nil `certFile` is
`none`. -/
structure azureManagementContext (σ Descriptor CertFile : Type) where
  ManagementAPI : ManagementAPI σ Descriptor
  certFile : Option CertFile

/-- What lies outside the file: `gwacl`, the packages `instance` and
`environs`, and the rest of the package `azure`. `Instance` is the
interface `instance.Instance`, `CertFile` the type `tempCertFile`. -/
structure Externals (σ Descriptor CertFile Instance : Type) where
  Id : Instance → String
  azureInstance : Descriptor → Instance
  newTempCertFile : String → Except GoError CertFile
  Path : CertFile → String
  NewManagementAPI : String → String → Except GoError (ManagementAPI σ Descriptor)
  ErrNoInstances : GoError
  ErrPartialInstances : GoError

/-- The struct `azureEnviron` (line 19), with what its configuration
`ecfg` answers for the subscription id and the certificate. -/
structure azureEnviron where
  name : String
  ManagementSubscriptionId : String
  ManagementCertificate : String

/-- The session `gwacl.StorageContext`: the request answers from the state
of the account and leaves a new state. -/
structure StorageContext (σ : Type) where
  DeleteAllBlobs : DeleteAllBlobsRequest → σ → Option GoError × σ

/-- The struct `azureStorage` of the package (declared outside this file),
with what its methods `getStorageContext` and `getContainer` answer. -/
structure azureStorage (σ : Type) where
  getStorageContext : Except GoError (StorageContext σ)
  getContainer : String

/-! ## The Azure environ: operations -/

section Operations

variable {σ Descriptor CertFile Instance : Type}

/-- The method `Name` (line 67). -/
def azureEnviron.Name (env : azureEnviron) : String := env.name

/-- The method `getEnvPrefix` (line 217). -/
def getEnvPrefix (env : azureEnviron) : String := "juju-" ++ env.Name

/-- The method `getManagementAPI` (line 316): the context or the error, and
the effects. -/
def getManagementAPI (x : Externals σ Descriptor CertFile Instance) (env : azureEnviron) :
    Except GoError (azureManagementContext σ Descriptor CertFile) × List Effect :=
  let subscription := env.ManagementSubscriptionId
  let certData := env.ManagementCertificate
  match x.newTempCertFile certData with
  | Except.error err => (Except.error err, [])
  | Except.ok certFile =>
    match x.NewManagementAPI subscription (x.Path certFile) with
    | Except.error err =>
      (Except.error err,
        [Effect.newTempCertFile certData, Effect.certFileDelete (x.Path certFile)])
    | Except.ok mgtAPI =>
      (Except.ok { ManagementAPI := mgtAPI, certFile := some certFile },
        [Effect.newTempCertFile certData])

/-- The method `releaseManagementAPI` (line 340): its effects. -/
def releaseManagementAPI (x : Externals σ Descriptor CertFile Instance)
    (context : Option (azureManagementContext σ Descriptor CertFile)) : List Effect :=
  match context with
  | none => []
  | some ctx =>
    match ctx.certFile with
    | none => []
    | some certFile => [Effect.certFileDelete (x.Path certFile)]

/-- The function `convertToInstances` (line 223). -/
def convertToInstances (x : Externals σ Descriptor CertFile Instance) :
    List Descriptor → List Instance
  | [] => []
  | service :: rest => x.azureInstance service :: convertToInstances x rest

/-- The result of a batch operation on the account: the value returned, the
effects in order, and the state of the account afterwards. -/
structure Outcome (σ α : Type) where
  value : α
  effects : List Effect
  state : σ

/-- The loop of `StopInstances` (line 148): one request per instance; the
first error is kept and the loop goes on. -/
def stopLoop (x : Externals σ Descriptor CertFile Instance)
    (context : azureManagementContext σ Descriptor CertFile) :
    List Instance → Option GoError → List Effect → σ → Outcome σ (Option GoError)
  | [], firstErr, effects, s => { value := firstErr, effects := effects, state := s }
  | inst :: rest, firstErr, effects, s =>
    let request : DestroyHostedServiceRequest := { ServiceName := x.Id inst }
    let r := context.ManagementAPI.DestroyHostedService request s
    let firstErr2 :=
      match r.1, firstErr with
      | some err, none => some err
      | _, _ => firstErr
    stopLoop x context rest firstErr2 (effects ++ [Effect.DestroyHostedService request]) r.2

/-- The method `StopInstances` (line 134). -/
def StopInstances (x : Externals σ Descriptor CertFile Instance) (env : azureEnviron)
    (instances : List Instance) (s : σ) : Outcome σ (Option GoError) :=
  if instances.length = 0 then { value := none, effects := [], state := s }
  else
    match getManagementAPI x env with
    | (Except.error err, effects) => { value := some err, effects := effects, state := s }
    | (Except.ok context, effects) =>
      let r := stopLoop x context instances none effects s
      { r with effects := r.effects ++ releaseManagementAPI x (some context) }

/-- The two results of `Instances` and `AllInstances`. -/
structure InstancesResult (Instance : Type) where
  instances : List Instance
  err : Option GoError

/-- The method `Instances` (line 159). -/
def Instances (x : Externals σ Descriptor CertFile Instance) (env : azureEnviron)
    (ids : List String) (s : σ) : Outcome σ (InstancesResult Instance) :=
  match getManagementAPI x env with
  | (Except.error err, effects) =>
    { value := { instances := [], err := some err }, effects := effects, state := s }
  | (Except.ok context, effects) =>
    let serviceNames := ids.map (fun id => id)
    let request : ListSpecificHostedServicesRequest := { ServiceNames := serviceNames }
    let r := context.ManagementAPI.ListSpecificHostedServices request s
    let effects2 := effects ++ [Effect.ListSpecificHostedServices request]
    let released := releaseManagementAPI x (some context)
    match r.1 with
    | Except.error err =>
      { value := { instances := [], err := some err },
        effects := effects2 ++ released, state := r.2 }
    | Except.ok services =>
      if services.length = 0 then
        { value := { instances := [], err := some x.ErrNoInstances },
          effects := effects2 ++ released, state := r.2 }
      else
        let instances := convertToInstances x services
        if ids.length ≠ instances.length then
          { value := { instances := instances, err := some x.ErrPartialInstances },
            effects := effects2 ++ released, state := r.2 }
        else
          { value := { instances := instances, err := none },
            effects := effects2 ++ released, state := r.2 }

/-- The method `AllInstances` (line 197). -/
def AllInstances (x : Externals σ Descriptor CertFile Instance) (env : azureEnviron)
    (s : σ) : Outcome σ (InstancesResult Instance) :=
  match getManagementAPI x env with
  | (Except.error err, effects) =>
    { value := { instances := [], err := some err }, effects := effects, state := s }
  | (Except.ok context, effects) =>
    let request : ListPrefixedHostedServicesRequest :=
      { ServiceNamePrefix := getEnvPrefix env }
    let r := context.ManagementAPI.ListPrefixedHostedServices request s
    let effects2 := effects ++ [Effect.ListPrefixedHostedServices request]
    let released := releaseManagementAPI x (some context)
    match r.1 with
    | Except.error err =>
      { value := { instances := [], err := some err },
        effects := effects2 ++ released, state := r.2 }
    | Except.ok services =>
      { value := { instances := convertToInstances x services, err := none },
        effects := effects2 ++ released, state := r.2 }

/-- The first loop of `Destroy` (line 263): the keys of the map `found`
that are set to true, each id of an instance added in turn. The map only
ever holds true, so it is the list of its keys and `found[id]` is the
membership of `id`. -/
def markFound (x : Externals σ Descriptor CertFile Instance) :
    List Instance → List String → List String
  | [], found => found
  | inst :: rest, found => markFound x rest (x.Id inst :: found)

/-- The second loop of `Destroy` (line 269): an instance whose id is not
in `found` is appended to `insts` and its id is put into `found`. -/
def appendMissing (x : Externals σ Descriptor CertFile Instance) :
    List Instance → List Instance → List String → List Instance
  | [], insts, _ => insts
  | inst :: rest, insts, found =>
    if x.Id inst ∈ found then appendMissing x rest insts found
    else appendMissing x rest (insts ++ [inst]) (x.Id inst :: found)

/-- The list that `Destroy` hands to `StopInstances` (lines 262 to 276),
from the result of `AllInstances` and the instances to ensure. -/
def instancesToStop (x : Externals σ Descriptor CertFile Instance)
    (insts ensureInsts : List Instance) : List Instance :=
  appendMissing x ensureInsts insts (markFound x insts [])

/-- The method `Destroy` (line 242). The storage is the value of
`env.Storage()`, `none` when it is no `*azureStorage`; the result `none` is
the panic of that type assertion. The debug message of line 243 is left
out. -/
def Destroy (x : Externals σ Descriptor CertFile Instance) (env : azureEnviron)
    (storage : Option (azureStorage σ)) (ensureInsts : List Instance) (s : σ) :
    Option (Outcome σ (Option GoError)) :=
  match storage with
  | none => none
  | some st =>
    match st.getStorageContext with
    | Except.error err => some { value := some err, effects := [], state := s }
    | Except.ok context =>
      let request : DeleteAllBlobsRequest := { Container := st.getContainer }
      let r := context.DeleteAllBlobs request s
      match r.1 with
      | some err =>
        some { value := some (GoError.Errorf "cannot clean up storage: %v" err),
               effects := [Effect.DeleteAllBlobs request], state := r.2 }
      | none =>
        let all := AllInstances x env r.2
        match all.value.err with
        | some err =>
          some { value := some (GoError.Errorf "cannot get instances: %v" err),
                 effects := [Effect.DeleteAllBlobs request] ++ all.effects,
                 state := all.state }
        | none =>
          let insts := instancesToStop x all.value.instances ensureInsts
          let stopped := StopInstances x env insts all.state
          some { value := stopped.value,
                 effects := [Effect.DeleteAllBlobs request] ++ all.effects ++ stopped.effects,
                 state := stopped.state }

/-- The first instance of each id, in the order of the list: the head is
kept and the later instances with its id are dropped. -/
def firstById (x : Externals σ Descriptor CertFile Instance) : List Instance → List Instance
  | [] => []
  | inst :: rest =>
    inst :: (firstById x rest).filter (fun other => decide (x.Id other ≠ x.Id inst))

/-- The instances to ensure whose id did not show up among the instances
listed, each id once, at its first occurrence. -/
def missingInstances (x : Externals σ Descriptor CertFile Instance)
    (insts ensureInsts : List Instance) : List Instance :=
  firstById x (ensureInsts.filter (fun inst => decide (x.Id inst ∉ insts.map x.Id)))

/-- The request that `StopInstances` sends for an instance (line 149). -/
def destroyRequest (x : Externals σ Descriptor CertFile Instance) (inst : Instance) :
    DestroyHostedServiceRequest :=
  { ServiceName := x.Id inst }

/-- The answers of the account to a list of requests sent one after the
other, each from the state the one before left. -/
def destroyOutcomes (api : ManagementAPI σ Descriptor) :
    List DestroyHostedServiceRequest → σ → List (Option GoError)
  | [], _ => []
  | request :: rest, s =>
    (api.DestroyHostedService request s).1 ::
      destroyOutcomes api rest (api.DestroyHostedService request s).2

/-- The state of the account after a list of requests. -/
def destroyState (api : ManagementAPI σ Descriptor) :
    List DestroyHostedServiceRequest → σ → σ
  | [], s => s
  | request :: rest, s => destroyState api rest (api.DestroyHostedService request s).2

/-- The `DestroyHostedService` requests among the effects, in order. -/
def destroyRequestsOf : List Effect → List DestroyHostedServiceRequest
  | [] => []
  | Effect.DestroyHostedService request :: rest => request :: destroyRequestsOf rest
  | _ :: rest => destroyRequestsOf rest

/-- The error of the first request that failed, nil when none failed. -/
def firstFailure : List (Option GoError) → Option GoError
  | [] => none
  | some err :: _ => some err
  | none :: rest => firstFailure rest

end Operations

/-! ## Concrete accounts -/

/-- An account for the concrete runs: its state is the list of the names
of its services; destroying a service that is not there fails; listing
answers the names asked for that are there. -/
def listAPI : ManagementAPI (List String) String :=
  { DestroyHostedService := fun request s =>
      if request.ServiceName ∈ s then (none, s.erase request.ServiceName)
      else (some (GoError.New ("no service " ++ request.ServiceName)), s),
    ListSpecificHostedServices := fun request s =>
      (Except.ok (request.ServiceNames.filter (fun n => decide (n ∈ s))), s),
    ListPrefixedHostedServices := fun request s =>
      (Except.ok (s.filter (fun n => request.ServiceNamePrefix.isPrefixOf n)), s) }

/-- The outside for the concrete runs: instances and descriptors are
service names, the certificate file is its path. -/
def listExternals : Externals (List String) String String String :=
  { Id := fun inst => inst,
    azureInstance := fun service => service,
    newTempCertFile := fun _ => Except.ok "/tmp/cert",
    Path := fun certFile => certFile,
    NewManagementAPI := fun _ _ => Except.ok listAPI,
    ErrNoInstances := GoError.New "no instances found",
    ErrPartialInstances := GoError.New "only some instances were found" }

/-- The environ of the concrete runs. -/
def testEnviron : azureEnviron :=
  { name := "test", ManagementSubscriptionId := "subscription", ManagementCertificate := "cert" }

/-- The storage context of the concrete runs: the deletion of the blobs
succeeds and leaves the services as they are. -/
def listStorageContext : StorageContext (List String) :=
  { DeleteAllBlobs := fun _ s => (none, s) }

/-- The storage of the concrete runs: the context is handed out. -/
def listStorage : azureStorage (List String) :=
  { getStorageContext := Except.ok listStorageContext, getContainer := "container" }

/-- An account for the concrete runs that lists the services of its state
whatever the prefix asked for, and is `listAPI` otherwise. -/
def listAllAPI : ManagementAPI (List String) String :=
  { listAPI with ListPrefixedHostedServices := fun _ s => (Except.ok s, s) }

/-- The outside for the concrete runs on the account `listAllAPI`. -/
def listAllExternals : Externals (List String) String String String :=
  { listExternals with NewManagementAPI := fun _ _ => Except.ok listAllAPI }

/-- The context that `getManagementAPI` hands out in the concrete runs. -/
def listContext : azureManagementContext (List String) String String :=
  { ManagementAPI := listAPI, certFile := some "/tmp/cert" }

end Azure

/-! # Properties of the plugin -/

namespace UpgradeMongo

section Lemmas

variable {Version MachineTag Address Root : Type}

theorem parse_jujuUpgradeScript :
    parseChars ["shquote"] jujuUpgradeScript.data Mode.text [] [] =
      some [Node.text "\n/var/lib/juju/tools/machine-", Node.field "MachineNumber",
        Node.text "/jujud upgrade-mongo --series ", Node.field "Series",
        Node.text " --machinetag 'machine-", Node.field "MachineNumber", Node.text "'\n"] := by
  decide

theorem field_MachineNumber (p : upgradeScriptParams) :
    p.field "MachineNumber" = some p.MachineNumber := by
  simp [upgradeScriptParams.field]

theorem field_Series (p : upgradeScriptParams) : p.field "Series" = some p.Series := by
  simp [upgradeScriptParams.field]

/-- The template always parses and executes, and the text is the constant
parts with the id and the series of the master as they are, whatever the
function registered as shquote. -/
theorem renderUpgradeCommand_eq (x : Externals Version MachineTag Address Root)
    (master : migratable MachineTag Address) :
    renderUpgradeCommand x master =
      some (upgradeScriptText (x.Id master.machine) master.series) := by
  simp [renderUpgradeCommand, Parse, Must, parse_jujuUpgradeScript, Execute, execNodes,
    field_MachineNumber, field_Series, upgradeScriptText, String.append_assoc]

/-- The run after a discovery that succeeded: it never panics, it runs the
one process of the master and returns the error of that process, annotated. -/
theorem Run_of_discovery (x : Externals Version MachineTag Address Root)
    (c : upgradeMongoCommand Version Address Root)
    (ms : upgradeMongoParams MachineTag Address)
    (hlog : c.LogStart = none) (hd : migratableMachines x c = Except.ok ms) :
    Run x c = some
      { err := (x.cmdRun (sshCommand x (x.Value ms.master.ip)
            (upgradeScriptText (x.Id ms.master.machine) ms.master.series))).err.map
          (fun e => GoError.Annotate
            (GoError.Annotatef e "ssh command failed: (%q)"
              ["" ++ (x.cmdRun (sshCommand x (x.Value ms.master.ip)
                (upgradeScriptText (x.Id ms.master.machine) ms.master.series))).stderr])
            "migration to mongo 3 unsuccesful"),
        executed := [sshCommand x (x.Value ms.master.ip)
          (upgradeScriptText (x.Id ms.master.machine) ms.master.series)],
        printed := [upgradeScriptText (x.Id ms.master.machine) ms.master.series] } := by
  unfold Run
  rw [hlog, hd]
  simp only [renderUpgradeCommand_eq, runViaJujuSSH]
  cases h : (x.cmdRun (sshCommand x (x.Value ms.master.ip)
      (upgradeScriptText (x.Id ms.master.machine) ms.master.series))).err <;> simp [h]

/-- The run after a discovery that failed: the annotated error, and no
process. -/
theorem Run_of_discovery_error (x : Externals Version MachineTag Address Root)
    (c : upgradeMongoCommand Version Address Root) (err : GoError)
    (hlog : c.LogStart = none) (hd : migratableMachines x c = Except.error err) :
    Run x c = some
      { err := some (GoError.Annotate err "cannot determine status servers"),
        executed := [], printed := [] } := by
  unfold Run
  rw [hlog, hd]

theorem ubuntu_at_injective (a b : String) (h : "ubuntu@" ++ a = "ubuntu@" ++ b) : a = b := by
  have h2 := congrArg String.data h
  simp only [String.data_append] at h2
  exact String.ext (List.append_cancel_left h2)

theorem executionsAgainst_single_self (e : ExecCommand) (addr : String)
    (h : e.target = some ("ubuntu@" ++ addr)) : executionsAgainst [e] addr = 1 := by
  simp [executionsAgainst, h]

theorem executionsAgainst_single_other (e : ExecCommand) (addr : String)
    (h : e.target ≠ some ("ubuntu@" ++ addr)) : executionsAgainst [e] addr = 0 := by
  simp [executionsAgainst, h]

theorem target_sshCommand (x : Externals Version MachineTag Address Root)
    (machine script : String) :
    (sshCommand x machine script).target = some ("ubuntu@" ++ machine) := rfl

theorem hasVoteMachines_cons [Inhabited Address] (x : Externals Version MachineTag Address Root)
    (e : YamlValue × YamlValue) (rest : List (YamlValue × YamlValue)) :
    hasVoteMachines x (e :: rest) =
      match readMachine x e with
      | some (some (true, mi)) => mi :: hasVoteMachines x rest
      | _ => hasVoteMachines x rest := by
  unfold hasVoteMachines
  rw [List.filterMap_cons]
  split <;> rename_i h <;> split at h <;> simp_all

theorem otherStateServers_cons [Inhabited Address]
    (x : Externals Version MachineTag Address Root)
    (e : YamlValue × YamlValue) (rest : List (YamlValue × YamlValue)) :
    otherStateServers x (e :: rest) =
      match readMachine x e with
      | some (some (false, mi)) => mi :: otherStateServers x rest
      | _ => otherStateServers x rest := by
  unfold otherStateServers
  rw [List.filterMap_cons]
  split <;> rename_i h <;> split at h <;> simp_all

theorem statusLoop_eq [Inhabited Address] (x : Externals Version MachineTag Address Root)
    (machines : List (YamlValue × YamlValue)) :
    ∀ p : upgradeMongoParams MachineTag Address,
      (∀ e ∈ machines, (readMachine x e).isSome = true) →
      statusLoop x machines p =
        some { master := (hasVoteMachines x machines).getLastD p.master,
               machines := p.machines ++ otherStateServers x machines } := by
  induction machines with
  | nil =>
    intro p _
    simp [statusLoop, hasVoteMachines, otherStateServers]
  | cons e rest ih =>
    intro p h
    obtain ⟨id, machine⟩ := e
    have hhead := h (id, machine) (List.mem_cons_self _ _)
    have hrest : ∀ e ∈ rest, (readMachine x e).isSome = true :=
      fun e he => h e (List.mem_cons_of_mem _ he)
    rw [hasVoteMachines_cons, otherStateServers_cons]
    unfold statusLoop
    unfold readMachine at hhead ⊢
    simp only [] at hhead ⊢
    cases hm : machine.asMap with
    | none => simp [hm] at hhead
    | some m =>
      simp only [hm] at hhead ⊢
      cases hv : mapIndex m "state-server-member-status" with
      | none =>
        simp only [hv]
        rw [ih p hrest]
      | some hasVote =>
        simp only [hv] at hhead ⊢
        cases h1 : id.asString with
        | none => simp [h1] at hhead
        | some ids =>
          cases h2 : ((mapIndex m "series").getD YamlValue.null).asString with
          | none => simp [h1, h2] at hhead
          | some series =>
            cases h3 : hasVote.asString with
            | none => simp [h1, h2, h3] at hhead
            | some vote =>
              simp only []
              by_cases hvote : vote = "has-vote"
              · simp only [hvote, if_true, decide_True]
                rw [ih _ hrest]
                simp [List.getLast?_cons]
              · simp only [hvote, if_false, decide_False]
                rw [ih _ hrest]
                simp [List.getLast?_cons]

theorem migratableMachinesFromStatus_error_iff [Inhabited MachineTag] [Inhabited Address]
    (x : Externals Version MachineTag Address Root) (err : GoError) :
    migratableMachinesFromStatus x = some (Except.error err) ↔
      (∃ e, (x.cmdRun statusCommand).err = some e ∧
        err = GoError.Annotate e "cannot determine juju state servers") ∨
      ((x.cmdRun statusCommand).err = none ∧
        ∃ e, x.Unmarshal (x.cmdRun statusCommand).stdout = Except.error e ∧
          err = GoError.Annotate e "cannot unmarshall status") := by
  unfold migratableMachinesFromStatus
  simp only []
  cases hrun : (x.cmdRun statusCommand).err with
  | some e => simp [eq_comm]
  | none =>
    cases hdoc : x.Unmarshal (x.cmdRun statusCommand).stdout with
    | error e => simp [eq_comm]
    | ok status =>
      simp only []
      cases hm : ((statusIndex status "machines").getD YamlValue.null).asMap with
      | none => simp
      | some machines =>
        simp only []
        split <;> simp

theorem upgradeScriptText_series_injective (id s1 s2 : String)
    (h : upgradeScriptText id s1 = upgradeScriptText id s2) : s1 = s2 := by
  have h2 := congrArg String.data h
  simp only [upgradeScriptText, String.data_append, List.append_assoc] at h2
  have h3 := List.append_cancel_left (List.append_cancel_left (List.append_cancel_left h2))
  exact String.ext (List.append_cancel_right h3)

theorem upgradeScriptText_id_injective (id1 id2 s : String)
    (h : upgradeScriptText id1 s = upgradeScriptText id2 s) : id1 = id2 := by
  have h2 := congrArg String.data h
  simp only [upgradeScriptText, String.data_append, List.append_assoc] at h2
  have hlen := congrArg List.length h2
  simp only [List.length_append] at hlen
  have h3 := List.append_cancel_left h2
  exact String.ext (List.append_inj_left h3 (by omega))

set_option maxRecDepth 100000

theorem splitAtDelim_of_not_mem (delim : Char) (l : List Char) (h : delim ∉ l) :
    splitAtDelim delim l = none := by
  induction l with
  | nil => rfl
  | cons c rest ih =>
    simp only [List.mem_cons, not_or] at h
    have hc : ¬ c = delim := fun e => h.1 e.symm
    simp [splitAtDelim, hc, ih h.2]

theorem splitAtDelim_append (delim : Char) (line rest : List Char) (h : delim ∉ line) :
    splitAtDelim delim (line ++ delim :: rest) = some (line ++ [delim], rest) := by
  induction line with
  | nil => simp [splitAtDelim]
  | cons c tl ih =>
    simp only [List.mem_cons, not_or] at h
    have hc : ¬ c = delim := fun e => h.1 e.symm
    simp [splitAtDelim, hc, ih h.2]

theorem ReadString_partial (part : String) (h : Char.ofNat 10 ∉ part.data) :
    ReadString part (Char.ofNat 10) = (part, some ReadError.EOF, "") := by
  simp [ReadString, splitAtDelim_of_not_mem _ _ h]

theorem ReadString_line (line rest : String) (h : Char.ofNat 10 ∉ line.data) :
    ReadString (line ++ "\n" ++ rest) (Char.ofNat 10) = (line ++ "\n", none, rest) := by
  have h2 : (line ++ "\n" ++ rest).data = line.data ++ Char.ofNat 10 :: rest.data := by
    simp [String.data_append]
  have h3 : String.mk (line.data ++ [Char.ofNat 10]) = line ++ "\n" := by
    apply String.ext
    simp [String.data_append]
  simp [ReadString, h2, splitAtDelim_append _ _ _ h, h3]

theorem ReadString_err (buf : String) :
    (ReadString buf (Char.ofNat 10)).2.1 = none ∨
      (ReadString buf (Char.ofNat 10)).2.1 = some ReadError.EOF := by
  unfold ReadString
  split <;> simp

theorem bufferPrinter_tick (rest : List Step) (stdout : String) :
    bufferPrinter (Step.tick :: rest) stdout =
      (ReadString stdout (Char.ofNat 10)).1 ::
        bufferPrinter rest (ReadString stdout (Char.ofNat 10)).2.2 := by
  rw [bufferPrinter]
  rcases ReadString_err stdout with h | h <;> simp [h]

theorem appendMembers_eq (x : Externals Version MachineTag Address Root)
    (members : List (HAMember Address)) :
    ∀ acc : List (migratable MachineTag Address),
      appendMembers x members acc = acc ++ members.map (toMigratable x) := by
  induction members with
  | nil => intro acc; simp [appendMembers]
  | cons m rest ih => intro acc; simp [appendMembers, ih]

theorem eq_of_append_delim_eq (delim : Char) (l1 l2 r1 r2 : List Char)
    (h1 : delim ∉ l1) (h2 : delim ∉ l2) (h : l1 ++ delim :: r1 = l2 ++ delim :: r2) :
    l1 = l2 := by
  have e1 := splitAtDelim_append delim l1 r1 h1
  have e2 := splitAtDelim_append delim l2 r2 h2
  rw [h, e2] at e1
  have e3 := (Prod.mk.inj (Option.some.inj e1)).1
  exact (List.append_cancel_right e3).symm

theorem upgradeScriptText_data (id s : String) :
    (upgradeScriptText id s).data =
      "\n/var/lib/juju/tools/machine-".data ++
        (id.data ++ ("/jujud upgrade-mongo --series ".data ++
          (s.data ++ (" --machinetag 'machine-".data ++ (id.data ++ "'\n".data))))) := by
  simp only [upgradeScriptText, String.data_append, List.append_assoc]

theorem upgradeScriptText_injective_of_length (id1 id2 s1 s2 : String)
    (h : upgradeScriptText id1 s1 = upgradeScriptText id2 s2)
    (hl : id1.length = id2.length) : id1 = id2 ∧ s1 = s2 := by
  have h2 := congrArg String.data h
  rw [upgradeScriptText_data, upgradeScriptText_data] at h2
  have h3 := List.append_cancel_left h2
  have hid : id1 = id2 := String.ext (List.append_inj_left h3 hl)
  subst hid
  exact ⟨rfl, upgradeScriptText_series_injective _ _ _ h⟩

theorem upgradeScriptText_injective_of_series_length (id1 id2 s1 s2 : String)
    (h : upgradeScriptText id1 s1 = upgradeScriptText id2 s2)
    (hl : s1.length = s2.length) : id1 = id2 ∧ s1 = s2 := by
  have hd := congrArg (fun t : String => t.data.length) h
  simp only [upgradeScriptText_data, List.length_append] at hd
  have hl2 : s1.data.length = s2.data.length := hl
  exact upgradeScriptText_injective_of_length id1 id2 s1 s2 h
    (show id1.data.length = id2.data.length by omega)

theorem eq_of_append_infix_delim_eq (delim : Char) (l1 l2 mid r1 r2 : List Char)
    (h1 : delim ∉ l1) (h2 : delim ∉ l2) (hm : delim ∉ mid)
    (h : l1 ++ (mid ++ delim :: r1) = l2 ++ (mid ++ delim :: r2)) : l1 = l2 := by
  rw [← List.append_assoc, ← List.append_assoc] at h
  have hn1 : delim ∉ l1 ++ mid := by
    simp only [List.mem_append, not_or]
    exact ⟨h1, hm⟩
  have hn2 : delim ∉ l2 ++ mid := by
    simp only [List.mem_append, not_or]
    exact ⟨h2, hm⟩
  exact List.append_cancel_right (eq_of_append_delim_eq delim _ _ _ _ hn1 hn2 h)

theorem upgradeScriptText_injective_of_no_slash (id1 id2 s1 s2 : String)
    (h : upgradeScriptText id1 s1 = upgradeScriptText id2 s2)
    (h1 : '/' ∉ id1.data) (h2 : '/' ∉ id2.data) : id1 = id2 ∧ s1 = s2 := by
  have hd := congrArg String.data h
  rw [upgradeScriptText_data, upgradeScriptText_data] at hd
  have h3 := List.append_cancel_left hd
  have hb : "/jujud upgrade-mongo --series ".data =
      [] ++ '/' :: "jujud upgrade-mongo --series ".data := by
    decide
  rw [hb, List.append_assoc, List.append_assoc] at h3
  have hid : id1 = id2 :=
    String.ext (eq_of_append_infix_delim_eq '/' _ _ [] _ _ h1 h2 (List.not_mem_nil _) h3)
  subst hid
  exact ⟨rfl, upgradeScriptText_series_injective _ _ _ h⟩

theorem upgradeScriptText_injective_of_no_hyphen (id1 id2 s1 s2 : String)
    (h : upgradeScriptText id1 s1 = upgradeScriptText id2 s2)
    (h1 : '-' ∉ id1.data) (h2 : '-' ∉ id2.data) : id1 = id2 ∧ s1 = s2 := by
  have hd := congrArg String.data h
  rw [upgradeScriptText_data, upgradeScriptText_data] at hd
  have h3 := List.append_cancel_left hd
  have hb : "/jujud upgrade-mongo --series ".data =
      "/jujud upgrade".data ++ '-' :: "mongo --series ".data := by
    decide
  rw [hb, List.append_assoc, List.append_assoc] at h3
  have hp : '-' ∉ "/jujud upgrade".data := by decide
  have hid : id1 = id2 :=
    String.ext (eq_of_append_infix_delim_eq '-' _ _ _ _ _ h1 h2 hp h3)
  subst hid
  exact ⟨rfl, upgradeScriptText_series_injective _ _ _ h⟩

end Lemmas

section Claims

variable {Version MachineTag Address Root : Type}

/-- C1: the code at the failing input. The master is at 10.0.0.1 and the
secondary machine 1 at 10.0.0.2, where every remote command fails, so it
cannot be quiesced. `stopAllMongos` returns nil for it, and the run sends
nothing to 10.0.0.2: it neither stops the secondary nor reports a failure,
and its one process is the upgrade command, run against the primary with
success. -/
theorem primary_upgraded_though_secondary_not_quiesced :
    migratableMachines (concreteExternals Mongo30wt (cmdRunFailingAt ["10.0.0.2"]))
        (concreteCommand (fixedClient machine0 [machine1]))
      = Except.ok (concreteTopology machine0 [machine1]) ∧
    (∀ script : String,
      ((concreteExternals Mongo30wt (cmdRunFailingAt ["10.0.0.2"])).cmdRun
        (sshCommand (concreteExternals Mongo30wt (cmdRunFailingAt ["10.0.0.2"]))
          "10.0.0.2" script)).err ≠ none) ∧
    stopAllMongos ["10.0.0.2"] = none ∧
    (∃ r, Run (concreteExternals Mongo30wt (cmdRunFailingAt ["10.0.0.2"]))
        (concreteCommand (fixedClient machine0 [machine1])) = some r ∧
      r.err = none ∧
      r.executed =
        [sshCommand (concreteExternals Mongo30wt (cmdRunFailingAt ["10.0.0.2"]))
          "10.0.0.1" (upgradeScriptText "0" "trusty")] ∧
      executionsAgainst r.executed "10.0.0.2" = 0 ∧
      executionsAgainst r.executed "10.0.0.1" = 1) := by
  refine ⟨rfl, ?_, rfl, ?_⟩
  · intro script
    simp [concreteExternals, cmdRunFailingAt, sshCommand, ExecCommand.target]
  · refine ⟨_, Run_of_discovery _ _ (concreteTopology machine0 [machine1]) rfl rfl,
      ?_, rfl, ?_, ?_⟩
    · decide
    · decide
    · decide

/-- C2, as stated, fails: when a machine of the list has the address of the
master (machine 2 at 10.0.0.1), the one remote command of the run is
addressed to ubuntu@10.0.0.1, the address of that machine. -/
theorem command_addressed_to_listed_machine :
    migratableMachines (concreteExternals Mongo30wt (cmdRunFailingAt []))
        (concreteCommand (fixedClient machine0 [machine2]))
      = Except.ok (concreteTopology machine0 [machine2]) ∧
    concreteMigratable machine2 ∈ (concreteTopology machine0 [machine2]).machines ∧
    (∃ r, Run (concreteExternals Mongo30wt (cmdRunFailingAt []))
        (concreteCommand (fixedClient machine0 [machine2])) = some r ∧
      executionsAgainst r.executed
        ((concreteExternals Mongo30wt (cmdRunFailingAt [])).Value
          (concreteMigratable machine2).ip) = 1) := by
  refine ⟨rfl, ?_, ?_⟩
  · simp [concreteTopology]
  · refine ⟨_, Run_of_discovery _ _ (concreteTopology machine0 [machine2]) rfl rfl, ?_⟩
    decide

/-- C2 (amended): after a successful discovery the run executes exactly one
remote command: `ssh` to ubuntu@(master ip) with the text of the template
rendered on the id and the series of the master, quoted for
`sudo -n bash -c`; no remote command is addressed to a machine of the list
whose address differs from the address of the master. -/
theorem Run_executes_on_primary_only
    (x : Externals Version MachineTag Address Root)
    (c : upgradeMongoCommand Version Address Root)
    (ms : upgradeMongoParams MachineTag Address)
    (hlog : c.LogStart = none) (hd : migratableMachines x c = Except.ok ms) :
    renderUpgradeCommand x ms.master =
      some (upgradeScriptText (x.Id ms.master.machine) ms.master.series) ∧
    ∃ r, Run x c = some r ∧
      r.executed =
        [{ name := "ssh",
           args := ["ubuntu@" ++ x.Value ms.master.ip,
             "sudo -n bash -c " ++
               x.ShQuote (upgradeScriptText (x.Id ms.master.machine) ms.master.series)] }] ∧
      ∀ m ∈ ms.machines, x.Value m.ip ≠ x.Value ms.master.ip →
        executionsAgainst r.executed (x.Value m.ip) = 0 := by
  refine ⟨renderUpgradeCommand_eq x ms.master, _, Run_of_discovery x c ms hlog hd, rfl, ?_⟩
  intro m _ hne
  apply executionsAgainst_single_other
  rw [target_sshCommand]
  intro h
  exact hne (ubuntu_at_injective _ _ (Option.some.inj h)).symm

/-- C2 (amended) at a concrete run: the master at 10.0.0.1 and machine 1 at
10.0.0.2. -/
theorem Run_executes_on_primary_only_witness :
    ((concreteCommand (fixedClient machine0 [machine1])).LogStart = none ∧
      migratableMachines (concreteExternals Mongo30wt (cmdRunFailingAt []))
          (concreteCommand (fixedClient machine0 [machine1]))
        = Except.ok (concreteTopology machine0 [machine1])) ∧
    (renderUpgradeCommand (concreteExternals Mongo30wt (cmdRunFailingAt []))
        (concreteMigratable machine0) = some (upgradeScriptText "0" "trusty") ∧
    ∃ r, Run (concreteExternals Mongo30wt (cmdRunFailingAt []))
        (concreteCommand (fixedClient machine0 [machine1])) = some r ∧
      r.executed =
        [{ name := "ssh",
           args := ["ubuntu@" ++ "10.0.0.1",
             "sudo -n bash -c " ++ ShQuote (upgradeScriptText "0" "trusty")] }] ∧
      ∀ m ∈ [concreteMigratable machine1], m.ip ≠ "10.0.0.1" →
        executionsAgainst r.executed m.ip = 0) :=
  ⟨⟨rfl, rfl⟩,
    Run_executes_on_primary_only
      (concreteExternals Mongo30wt (cmdRunFailingAt []))
      (concreteCommand (fixedClient machine0 [machine1]))
      (concreteTopology machine0 [machine1]) rfl rfl⟩

/-- C3: when logging starts, `Run` returns, and it returns nil exactly when
the discovery succeeds and the remote command on the primary succeeds; a
failed discovery gives an error and no remote command; a failed command on
the primary gives an error. -/
theorem Run_nil_iff_discovery_and_primary_succeed
    (x : Externals Version MachineTag Address Root)
    (c : upgradeMongoCommand Version Address Root)
    (hlog : c.LogStart = none) :
    ∃ r, Run x c = some r ∧
      (r.err = none ↔
        ∃ ms, migratableMachines x c = Except.ok ms ∧
          (x.cmdRun (sshCommand x (x.Value ms.master.ip)
            (upgradeScriptText (x.Id ms.master.machine) ms.master.series))).err = none) ∧
      (∀ err, migratableMachines x c = Except.error err →
        r.err ≠ none ∧ r.executed = []) ∧
      (∀ ms, migratableMachines x c = Except.ok ms →
        (x.cmdRun (sshCommand x (x.Value ms.master.ip)
          (upgradeScriptText (x.Id ms.master.machine) ms.master.series))).err ≠ none →
        r.err ≠ none) := by
  cases hd : migratableMachines x c with
  | error err =>
    refine ⟨_, Run_of_discovery_error x c err hlog hd, ?_, ?_, ?_⟩
    · simp
    · intro _ _
      simp
    · intro ms h
      cases h
  | ok ms =>
    refine ⟨_, Run_of_discovery x c ms hlog hd, ?_, ?_, ?_⟩
    · constructor
      · intro h
        refine ⟨ms, rfl, ?_⟩
        simpa using h
      · rintro ⟨ms2, h2, h3⟩
        cases h2
        simp [h3]
    · intro err h
      cases h
    · intro ms2 h2 h3
      cases h2
      simpa using h3

/-- C3 at a concrete run: logging starts, the discovery succeeds and the
remote command on the master at 10.0.0.1 fails. -/
theorem Run_nil_iff_discovery_and_primary_succeed_witness :
    (concreteCommand (fixedClient machine0 [machine1])).LogStart = none ∧
    ∃ r, Run (concreteExternals Mongo30wt (cmdRunFailingAt ["10.0.0.1"]))
        (concreteCommand (fixedClient machine0 [machine1])) = some r ∧
      (r.err = none ↔
        ∃ ms, migratableMachines (concreteExternals Mongo30wt (cmdRunFailingAt ["10.0.0.1"]))
            (concreteCommand (fixedClient machine0 [machine1])) = Except.ok ms ∧
          (cmdRunFailingAt ["10.0.0.1"]
            (sshCommand (concreteExternals Mongo30wt (cmdRunFailingAt ["10.0.0.1"]))
              ms.master.ip (upgradeScriptText ms.master.machine ms.master.series))).err =
            none) ∧
      (∀ err, migratableMachines (concreteExternals Mongo30wt (cmdRunFailingAt ["10.0.0.1"]))
          (concreteCommand (fixedClient machine0 [machine1])) = Except.error err →
        r.err ≠ none ∧ r.executed = []) ∧
      (∀ ms, migratableMachines (concreteExternals Mongo30wt (cmdRunFailingAt ["10.0.0.1"]))
          (concreteCommand (fixedClient machine0 [machine1])) = Except.ok ms →
        (cmdRunFailingAt ["10.0.0.1"]
          (sshCommand (concreteExternals Mongo30wt (cmdRunFailingAt ["10.0.0.1"]))
            ms.master.ip (upgradeScriptText ms.master.machine ms.master.series))).err ≠
          none →
        r.err ≠ none) :=
  ⟨rfl,
    Run_nil_iff_discovery_and_primary_succeed
      (concreteExternals Mongo30wt (cmdRunFailingAt ["10.0.0.1"]))
      (concreteCommand (fixedClient machine0 [machine1])) rfl⟩

/-- C4, as stated, fails: a status document whose only state server has
member status "no-vote" (no primary) and one with two "has-vote" state
servers (two primaries) both give a topology and a nil error; the master is
the zero value in the first and the last "has-vote" machine in the second. -/
theorem status_discovery_accepts_zero_and_two_primaries :
    (hasVoteMachines
        (statusExternals (statusDocument [statusMachine "0" (some "no-vote") "trusty"]))
        [statusMachine "0" (some "no-vote") "trusty"]).length = 0 ∧
    migratableMachinesFromStatus
        (statusExternals (statusDocument [statusMachine "0" (some "no-vote") "trusty"])) =
      some (Except.ok
        { master := { machine := "", ip := "", result := 0, series := "" },
          machines := [{ machine := "0", ip := "", result := 0, series := "trusty" }] }) ∧
    (hasVoteMachines
        (statusExternals (statusDocument
          [statusMachine "0" (some "has-vote") "trusty",
           statusMachine "1" (some "has-vote") "xenial"]))
        [statusMachine "0" (some "has-vote") "trusty",
         statusMachine "1" (some "has-vote") "xenial"]).length = 2 ∧
    migratableMachinesFromStatus
        (statusExternals (statusDocument
          [statusMachine "0" (some "has-vote") "trusty",
           statusMachine "1" (some "has-vote") "xenial"])) =
      some (Except.ok
        { master := { machine := "1", ip := "", result := 0, series := "xenial" },
          machines := [] }) := by
  refine ⟨?_, ?_, ?_, ?_⟩ <;> rfl

/-- C4 (amended): `migratableMachinesFromStatus` does not count the
primaries. When the status command succeeds, its output unmarshals, the
machines are a map and every state server has a string id, series and
member status, it returns a topology and a nil error whatever the number of
"has-vote" machines: the master is the last "has-vote" state server in the
order of the iteration, or the zero value when there is none, and the
machines are the other state servers in that order. -/
theorem migratableMachinesFromStatus_takes_last_has_vote
    [Inhabited MachineTag] [Inhabited Address]
    (x : Externals Version MachineTag Address Root)
    (status : List (String × YamlValue)) (machines : List (YamlValue × YamlValue))
    (hrun : (x.cmdRun statusCommand).err = none)
    (hdoc : x.Unmarshal (x.cmdRun statusCommand).stdout = Except.ok status)
    (hmachines : ((statusIndex status "machines").getD YamlValue.null).asMap = some machines)
    (htyped : ∀ e ∈ machines, (readMachine x e).isSome = true) :
    migratableMachinesFromStatus x =
      some (Except.ok
        { master := (hasVoteMachines x machines).getLastD zeroMigratable,
          machines := otherStateServers x machines }) := by
  unfold migratableMachinesFromStatus
  simp only [hrun, hdoc, hmachines, statusLoop_eq x machines _ htyped, zeroMigratable,
    List.nil_append]

/-- C4 (amended) at a concrete document: the state servers 0 and 3 have
"has-vote", 1 has "no-vote", 2 is no state server; the master is machine 3. -/
theorem migratableMachinesFromStatus_takes_last_has_vote_witness :
    (((statusExternals (statusDocument mixedMachines)).cmdRun statusCommand).err = none ∧
      (statusExternals (statusDocument mixedMachines)).Unmarshal
          ((statusExternals (statusDocument mixedMachines)).cmdRun statusCommand).stdout =
        Except.ok (statusDocument mixedMachines) ∧
      ((statusIndex (statusDocument mixedMachines) "machines").getD YamlValue.null).asMap =
        some mixedMachines ∧
      ∀ e ∈ mixedMachines,
        (readMachine (statusExternals (statusDocument mixedMachines)) e).isSome = true) ∧
    migratableMachinesFromStatus (statusExternals (statusDocument mixedMachines)) =
      some (Except.ok
        { master := { machine := "3", ip := "", result := 0, series := "xenial" },
          machines := [{ machine := "1", ip := "", result := 0, series := "trusty" }] }) :=
  ⟨⟨rfl, rfl, rfl, by decide⟩,
    migratableMachinesFromStatus_takes_last_has_vote
      (statusExternals (statusDocument mixedMachines)) (statusDocument mixedMachines)
      mixedMachines rfl rfl rfl (by decide)⟩

/-- C5: the code at the failing input. The parsed template holds text and
the two fields and no call of shquote; the series "trusty; reboot" is put
into the command text as it is: the text holds a second command after the
semicolon, and the quoted form of the series does not occur in it. -/
theorem series_with_metacharacters_is_rendered_unquoted :
    (mustParseTemplate (concreteExternals Mongo30wt (cmdRunFailingAt []))
        jujuUpgradeScript).map (fun t => t.nodes) =
      some [Node.text "\n/var/lib/juju/tools/machine-", Node.field "MachineNumber",
        Node.text "/jujud upgrade-mongo --series ", Node.field "Series",
        Node.text " --machinetag 'machine-", Node.field "MachineNumber", Node.text "'\n"] ∧
    renderUpgradeCommand (concreteExternals Mongo30wt (cmdRunFailingAt []))
        { machine := "0", ip := "10.0.0.1", result := 0, series := "trusty; reboot" } =
      some "\n/var/lib/juju/tools/machine-0/jujud upgrade-mongo --series trusty; reboot --machinetag 'machine-0'\n" ∧
    ShQuote "trusty; reboot" = "'trusty; reboot'" ∧
    ¬ (ShQuote "trusty; reboot").data <:+:
      ("\n/var/lib/juju/tools/machine-0/jujud upgrade-mongo --series trusty; reboot --machinetag 'machine-0'\n" : String).data := by
  refine ⟨?_, ?_, ?_, ?_⟩
  · simp [mustParseTemplate, Parse, Must, parse_jujuUpgradeScript]
  · rw [renderUpgradeCommand_eq]; decide
  · decide
  · decide

/-- C6, as stated, fails: the rendering is not injective in the member.
For one target version, machine 0 with a series that holds text of the
template and a machine whose id holds text of the template differ in id and
in series and render the same command text. -/
theorem different_members_render_the_same_text :
    (concreteMigratable overlapMachineA).machine ≠ (concreteMigratable overlapMachineB).machine ∧
    (concreteMigratable overlapMachineA).series ≠ (concreteMigratable overlapMachineB).series ∧
    renderUpgradeCommand (concreteExternals Mongo30wt (cmdRunFailingAt []))
        (concreteMigratable overlapMachineA) =
      some "\n/var/lib/juju/tools/machine-0/jujud upgrade-mongo --series x --machinetag 'machine-0/jujud upgrade-mongo --series y --machinetag 'machine-0/jujud upgrade-mongo --series x --machinetag 'machine-0'\n" ∧
    renderUpgradeCommand (concreteExternals Mongo30wt (cmdRunFailingAt []))
        (concreteMigratable overlapMachineB) =
      some "\n/var/lib/juju/tools/machine-0/jujud upgrade-mongo --series x --machinetag 'machine-0/jujud upgrade-mongo --series y --machinetag 'machine-0/jujud upgrade-mongo --series x --machinetag 'machine-0'\n" := by
  refine ⟨by decide, by decide, ?_, ?_⟩
  · rw [renderUpgradeCommand_eq]; decide
  · rw [renderUpgradeCommand_eq]; decide

/-- C6 (amended): the rendering is a function of the machine id and the
series of the member alone: two renders with the same machine id and series
give the same text, whatever the rest of the outside. Two renders that give
the same text have the same machine id and the same series whenever the two
machine ids have the same length, or the two series have the same length,
or neither machine id holds a hyphen, or neither machine id holds a
slash. -/
theorem render_deterministic_and_injective_on_plain_ids
    (x x2 : Externals Version MachineTag Address Root)
    (m m2 : migratable MachineTag Address) :
    (x.Id m.machine = x2.Id m2.machine → m.series = m2.series →
      renderUpgradeCommand x m = renderUpgradeCommand x2 m2) ∧
    (renderUpgradeCommand x m = renderUpgradeCommand x2 m2 →
      ((x.Id m.machine).length = (x2.Id m2.machine).length ∨
        m.series.length = m2.series.length ∨
        ('-' ∉ (x.Id m.machine).data ∧ '-' ∉ (x2.Id m2.machine).data) ∨
        ('/' ∉ (x.Id m.machine).data ∧ '/' ∉ (x2.Id m2.machine).data)) →
      x.Id m.machine = x2.Id m2.machine ∧ m.series = m2.series) := by
  simp only [renderUpgradeCommand_eq]
  refine ⟨?_, ?_⟩
  · intro h1 h2
    rw [h1, h2]
  · intro h hcond
    have ht := Option.some.inj h
    rcases hcond with hl | hl | ⟨h1, h2⟩ | ⟨h1, h2⟩
    · exact upgradeScriptText_injective_of_length _ _ _ _ ht hl
    · exact upgradeScriptText_injective_of_series_length _ _ _ _ ht hl
    · exact upgradeScriptText_injective_of_no_hyphen _ _ _ _ ht h1 h2
    · exact upgradeScriptText_injective_of_no_slash _ _ _ _ ht h1 h2

/-- C6 (amended) at concrete members: machine 0 on trusty renders the same
text at another address, and a differing text on xenial and as machine 1. -/
theorem render_deterministic_and_injective_on_plain_ids_witness :
    renderUpgradeCommand (concreteExternals Mongo30wt (cmdRunFailingAt []))
        (concreteMigratable machine0) =
      renderUpgradeCommand (concreteExternals Mongo30wt (cmdRunFailingAt []))
        (concreteMigratable { Tag := "0", PublicAddress := "10.0.0.9", Series := "trusty" }) ∧
    renderUpgradeCommand (concreteExternals Mongo30wt (cmdRunFailingAt []))
        (concreteMigratable machine0) ≠
      renderUpgradeCommand (concreteExternals Mongo30wt (cmdRunFailingAt []))
        (concreteMigratable { Tag := "0", PublicAddress := "10.0.0.1", Series := "xenial" }) ∧
    renderUpgradeCommand (concreteExternals Mongo30wt (cmdRunFailingAt []))
        (concreteMigratable machine0) ≠
      renderUpgradeCommand (concreteExternals Mongo30wt (cmdRunFailingAt []))
        (concreteMigratable machine1) :=
  ⟨(render_deterministic_and_injective_on_plain_ids
      (concreteExternals Mongo30wt (cmdRunFailingAt []))
      (concreteExternals Mongo30wt (cmdRunFailingAt []))
      (concreteMigratable machine0)
      (concreteMigratable { Tag := "0", PublicAddress := "10.0.0.9", Series := "trusty" })).1
      rfl rfl,
   fun h => absurd
    ((render_deterministic_and_injective_on_plain_ids
      (concreteExternals Mongo30wt (cmdRunFailingAt []))
      (concreteExternals Mongo30wt (cmdRunFailingAt []))
      (concreteMigratable machine0)
      (concreteMigratable { Tag := "0", PublicAddress := "10.0.0.1", Series := "xenial" })).2
      h (Or.inl rfl)).2 (by decide),
   fun h => absurd
    ((render_deterministic_and_injective_on_plain_ids
      (concreteExternals Mongo30wt (cmdRunFailingAt []))
      (concreteExternals Mongo30wt (cmdRunFailingAt []))
      (concreteMigratable machine0)
      (concreteMigratable machine1)).2
      h (Or.inr (Or.inr (Or.inl ⟨by decide, by decide⟩)))).1 (by decide)⟩

/-- C7, as stated, fails: fed with two lines and stopped before a tick,
`bufferPrinter` forwards nothing; a trailing "ghi" without a newline is
forwarded by the next periodic tick, and on the stop signal alone nothing
is forwarded. -/
theorem bufferPrinter_has_no_final_drain :
    bufferPrinter [Step.write "abc\ndef\n", Step.closer] "" = [] ∧
    bufferPrinter [Step.write "abc\ndef\n", Step.tick, Step.closer] "" = ["abc\n"] ∧
    bufferPrinter [Step.write "ghi", Step.tick, Step.closer] "" = ["ghi"] ∧
    bufferPrinter [Step.write "ghi", Step.closer] "" = [] := by
  decide

/-- C7 (amended): `bufferPrinter` forwards on the periodic ticks only, one
read per tick, and has no final drain. On the stop signal it returns at
once and forwards nothing; a tick on a buffer that starts with a line
forwards that line with its newline; a tick on a buffer without a newline
forwards all of it, so a trailing "ghi" is forwarded by the next tick. Fed
with "abc", newline, "def", newline and stopped after two ticks it forwards
exactly these two lines in that order. -/
theorem bufferPrinter_forwards_on_ticks_only :
    (∀ (rest : List Step) (stdout : String),
      bufferPrinter (Step.closer :: rest) stdout = []) ∧
    (∀ (rest : List Step) (line tail : String), Char.ofNat 10 ∉ line.data →
      bufferPrinter (Step.tick :: rest) (line ++ "\n" ++ tail) =
        (line ++ "\n") :: bufferPrinter rest tail) ∧
    (∀ (rest : List Step) (part : String), Char.ofNat 10 ∉ part.data →
      bufferPrinter (Step.tick :: rest) part = part :: bufferPrinter rest "") ∧
    bufferPrinter [Step.write "abc\ndef\n", Step.tick, Step.tick, Step.closer] "" =
      ["abc\n", "def\n"] ∧
    bufferPrinter [Step.write "abc\ndef\nghi", Step.tick, Step.tick, Step.tick, Step.closer] "" =
      ["abc\n", "def\n", "ghi"] := by
  refine ⟨fun _ _ => rfl, ?_, ?_, by decide, by decide⟩
  · intro rest line tail h
    rw [bufferPrinter_tick, ReadString_line line tail h]
  · intro rest part h
    rw [bufferPrinter_tick, ReadString_partial part h]

/-- C10: when the client is obtained and `MongoUpgradeMode` answers, the
machines of the result are the members of the answer in their order, each
with the address, the machine tag and the series of its member: the list
has the length of `results.Members` and its i-th entry is made from the
i-th member; the master is made from `results.Master`. -/
theorem migratableMachines_keeps_discovery_order
    (x : Externals Version MachineTag Address Root)
    (c : upgradeMongoCommand Version Address Root)
    (haClient : MongoUpgradeClient Version Address)
    (results : MongoUpgradeResults Address)
    (hclient : getHAClient x c = Except.ok haClient)
    (hmode : haClient.MongoUpgradeMode x.Mongo30wt = Except.ok results) :
    ∃ ms, migratableMachines x c = Except.ok ms ∧
      ms.machines.length = results.Members.length ∧
      (∀ i : Nat, ms.machines[i]? =
        (results.Members[i]?).map (fun member =>
          { ip := member.PublicAddress, machine := x.NewMachineTag member.Tag,
            result := 0, series := member.Series })) ∧
      ms.master =
        { ip := results.Master.PublicAddress, machine := x.NewMachineTag results.Master.Tag,
          result := 0, series := results.Master.Series } := by
  have hm : migratableMachines x c = Except.ok
      { master := toMigratable x results.Master,
        machines := appendMembers x results.Members [] } := by
    unfold migratableMachines
    rw [hclient]
    simp only [hmode]
  refine ⟨_, hm, ?_, ?_, ?_⟩
  · simp [appendMembers_eq]
  · intro i
    simp only [appendMembers_eq, List.nil_append, List.getElem?_map]
    rfl
  · rfl

/-- C10 at a concrete answer: the master machine 0 and the members machine 1
and machine 2, in that order. -/
theorem migratableMachines_keeps_discovery_order_witness :
    (getHAClient (concreteExternals Mongo30wt (cmdRunFailingAt []))
        (concreteCommand (fixedClient machine0 [machine1, machine2])) =
      Except.ok (fixedClient machine0 [machine1, machine2]) ∧
     (fixedClient machine0 [machine1, machine2]).MongoUpgradeMode
        (concreteExternals Mongo30wt (cmdRunFailingAt [])).Mongo30wt =
      Except.ok { Master := machine0, Members := [machine1, machine2] }) ∧
    ∃ ms, migratableMachines (concreteExternals Mongo30wt (cmdRunFailingAt []))
        (concreteCommand (fixedClient machine0 [machine1, machine2])) = Except.ok ms ∧
      ms.machines.length = [machine1, machine2].length ∧
      (∀ i : Nat, ms.machines[i]? =
        ([machine1, machine2][i]?).map (fun member =>
          { ip := member.PublicAddress, machine := member.Tag,
            result := 0, series := member.Series })) ∧
      ms.master =
        { ip := "10.0.0.1", machine := "0", result := 0, series := "trusty" } :=
  ⟨⟨rfl, rfl⟩,
    migratableMachines_keeps_discovery_order
      (concreteExternals Mongo30wt (cmdRunFailingAt []))
      (concreteCommand (fixedClient machine0 [machine1, machine2]))
      (fixedClient machine0 [machine1, machine2])
      { Master := machine0, Members := [machine1, machine2] } rfl rfl⟩

end Claims

end UpgradeMongo


/-! # Properties of the Azure environ -/

namespace Azure

section AzureLemmas

variable {σ Descriptor CertFile Instance : Type}

theorem stopLoop_eq (x : Externals σ Descriptor CertFile Instance)
    (context : azureManagementContext σ Descriptor CertFile) (instances : List Instance) :
    ∀ (firstErr : Option GoError) (effects : List Effect) (s : σ),
      stopLoop x context instances firstErr effects s =
        { value := firstFailure
            (firstErr :: destroyOutcomes context.ManagementAPI (instances.map (destroyRequest x)) s),
          effects := effects ++ (instances.map (destroyRequest x)).map Effect.DestroyHostedService,
          state := destroyState context.ManagementAPI (instances.map (destroyRequest x)) s } := by
  induction instances with
  | nil =>
    intro firstErr effects s
    cases firstErr <;> simp [stopLoop, firstFailure, destroyOutcomes, destroyState]
  | cons inst rest ih =>
    intro firstErr effects s
    simp only [stopLoop, ih, List.map_cons, destroyOutcomes, destroyState, destroyRequest]
    cases firstErr <;>
      cases h : (context.ManagementAPI.DestroyHostedService { ServiceName := x.Id inst } s).1 <;>
      simp [firstFailure]

theorem destroyOutcomes_length (api : ManagementAPI σ Descriptor)
    (requests : List DestroyHostedServiceRequest) :
    ∀ s : σ, (destroyOutcomes api requests s).length = requests.length := by
  induction requests with
  | nil => intro s; rfl
  | cons r rest ih => intro s; simp [destroyOutcomes, ih]

theorem convertToInstances_eq (x : Externals σ Descriptor CertFile Instance)
    (services : List Descriptor) :
    convertToInstances x services = services.map x.azureInstance := by
  induction services with
  | nil => rfl
  | cons sv rest ih => simp [convertToInstances, ih]

theorem destroyRequestsOf_append (l1 l2 : List Effect) :
    destroyRequestsOf (l1 ++ l2) = destroyRequestsOf l1 ++ destroyRequestsOf l2 := by
  induction l1 with
  | nil => rfl
  | cons e rest ih => cases e <;> simp [destroyRequestsOf, ih]

theorem destroyRequestsOf_map (requests : List DestroyHostedServiceRequest) :
    destroyRequestsOf (requests.map Effect.DestroyHostedService) = requests := by
  induction requests with
  | nil => rfl
  | cons r rest ih => simp [destroyRequestsOf, ih]

theorem destroyRequestsOf_getManagementAPI (x : Externals σ Descriptor CertFile Instance)
    (env : azureEnviron) : destroyRequestsOf (getManagementAPI x env).2 = [] := by
  unfold getManagementAPI
  simp only []
  split
  · rfl
  · split <;> rfl

theorem destroyRequestsOf_releaseManagementAPI (x : Externals σ Descriptor CertFile Instance)
    (context : Option (azureManagementContext σ Descriptor CertFile)) :
    destroyRequestsOf (releaseManagementAPI x context) = [] := by
  unfold releaseManagementAPI
  split
  · rfl
  · split <;> rfl

/-- The value of `firstFailure` is nil exactly when no request failed. -/
theorem firstFailure_eq_none_iff (outcomes : List (Option GoError)) :
    firstFailure outcomes = none ↔ ∀ o ∈ outcomes, o = none := by
  induction outcomes with
  | nil => simp [firstFailure]
  | cons o rest ih => cases o <;> simp [firstFailure, ih]

/-- The value of `firstFailure` is the first error of the list: the answers
before it are all nil. -/
theorem firstFailure_eq_some_iff (outcomes : List (Option GoError)) (err : GoError) :
    firstFailure outcomes = some err ↔
      ∃ before after, outcomes = before ++ some err :: after ∧ ∀ o ∈ before, o = none := by
  induction outcomes with
  | nil => simp [firstFailure]
  | cons o rest ih =>
    cases o with
    | none =>
      simp only [firstFailure, ih]
      constructor
      · rintro ⟨before, after, h1, h2⟩
        refine ⟨none :: before, after, by simp [h1], ?_⟩
        intro o ho
        rcases List.mem_cons.mp ho with h | h
        · exact h
        · exact h2 o h
      · rintro ⟨before, after, h1, h2⟩
        cases before with
        | nil => simp at h1
        | cons b tl =>
          simp only [List.cons_append, List.cons.injEq] at h1
          exact ⟨tl, after, h1.2, fun o ho => h2 o (List.mem_cons_of_mem _ ho)⟩
    | some e =>
      simp only [firstFailure, Option.some.injEq]
      constructor
      · intro h
        exact ⟨[], rest, by simp [h], by simp⟩
      · rintro ⟨before, after, h1, h2⟩
        cases before with
        | nil =>
          simp only [List.nil_append, List.cons.injEq, Option.some.injEq] at h1
          exact h1.1
        | cons b tl =>
          simp only [List.cons_append, List.cons.injEq] at h1
          have := h2 b (List.mem_cons_self _ _)
          rw [← h1.1] at this
          cases this

theorem mem_markFound (x : Externals σ Descriptor CertFile Instance) (insts : List Instance) :
    ∀ (found : List String) (id : String),
      id ∈ markFound x insts found ↔ id ∈ insts.map x.Id ∨ id ∈ found := by
  induction insts with
  | nil => intro found id; simp [markFound]
  | cons inst rest ih =>
    intro found id
    simp only [markFound, ih, List.map_cons, List.mem_cons]
    tauto

theorem firstById_sublist (x : Externals σ Descriptor CertFile Instance)
    (l : List Instance) : List.Sublist (firstById x l) l := by
  induction l with
  | nil => exact List.Sublist.slnil
  | cons inst rest ih =>
    exact List.Sublist.cons₂ inst ((List.filter_sublist _).trans ih)

theorem firstById_filter (x : Externals σ Descriptor CertFile Instance)
    (p : String → Bool) (l : List Instance) :
    (firstById x l).filter (fun inst => p (x.Id inst)) =
      firstById x (l.filter (fun inst => p (x.Id inst))) := by
  induction l with
  | nil => rfl
  | cons inst rest ih =>
    by_cases hp : p (x.Id inst) = true
    · simp only [firstById, List.filter_cons, hp, if_true, List.filter_filter, ← ih]
      congr 1
      apply List.filter_congr
      intro other _
      exact Bool.and_comm _ _
    · simp only [firstById, List.filter_cons, hp, Bool.false_eq_true, if_false,
        List.filter_filter]
      rw [← ih]
      apply List.filter_congr
      intro other _
      by_cases ho : p (x.Id other) = true
      · have hne : x.Id other ≠ x.Id inst := by
          intro h
          rw [h] at ho
          exact hp ho
        simp [ho, hne]
      · simp [ho]

theorem appendMissing_eq (x : Externals σ Descriptor CertFile Instance)
    (ensureInsts : List Instance) :
    ∀ (insts : List Instance) (found : List String),
      appendMissing x ensureInsts insts found =
        insts ++ firstById x (ensureInsts.filter (fun inst => decide (x.Id inst ∉ found))) := by
  induction ensureInsts with
  | nil => intro insts found; simp [appendMissing, firstById]
  | cons inst rest ih =>
    intro insts found
    by_cases h : x.Id inst ∈ found
    · simp [appendMissing, h, ih]
    · simp only [appendMissing, h, if_false, ih, List.filter_cons, decide_True,
        not_false_eq_true, if_true, firstById, List.append_assoc, List.singleton_append]
      congr 2
      rw [firstById_filter x (fun id => decide (id ≠ x.Id inst))]
      rw [List.filter_filter]
      congr 1
      apply List.filter_congr
      intro other _
      simp only [List.mem_cons, not_or, Bool.decide_and, Bool.and_comm]

theorem find_congr_of_mem {α : Type} (p q : α → Bool) (l : List α)
    (h : ∀ a ∈ l, p a = q a) : l.find? p = l.find? q := by
  induction l with
  | nil => rfl
  | cons a rest ih =>
    have ha := h a (List.mem_cons_self _ _)
    have hrest := ih (fun b hb => h b (List.mem_cons_of_mem _ hb))
    simp [List.find?_cons, ha, hrest]

theorem instancesToStop_eq (x : Externals σ Descriptor CertFile Instance)
    (insts ensureInsts : List Instance) :
    instancesToStop x insts ensureInsts = insts ++ missingInstances x insts ensureInsts := by
  unfold instancesToStop missingInstances
  rw [appendMissing_eq]
  congr 2
  apply List.filter_congr
  intro inst _
  simp [mem_markFound]

theorem mem_firstById_ids (x : Externals σ Descriptor CertFile Instance)
    (l : List Instance) :
    ∀ inst ∈ l, x.Id inst ∈ (firstById x l).map x.Id := by
  induction l with
  | nil => intro inst h; cases h
  | cons a rest ih =>
    intro inst h
    by_cases hid : x.Id inst = x.Id a
    · simp [firstById, hid]
    · rcases List.mem_cons.mp h with h1 | h1
      · exact absurd (congrArg x.Id h1) hid
      · obtain ⟨k, hk, hkid⟩ := List.mem_map.mp (ih inst h1)
        refine List.mem_map.mpr ⟨k, ?_, hkid⟩
        simp only [firstById, List.mem_cons, List.mem_filter]
        right
        refine ⟨hk, ?_⟩
        simp [hkid, hid]

theorem nodup_firstById_ids (x : Externals σ Descriptor CertFile Instance)
    (l : List Instance) : ((firstById x l).map x.Id).Nodup := by
  induction l with
  | nil => simp [firstById]
  | cons a rest ih =>
    simp only [firstById, List.map_cons, List.nodup_cons]
    constructor
    · intro h
      obtain ⟨k, hk, hkid⟩ := List.mem_map.mp h
      have := (List.mem_filter.mp hk).2
      simp [hkid] at this
    · exact ih.sublist ((List.filter_sublist _).map x.Id)

theorem find_firstById (x : Externals σ Descriptor CertFile Instance) (l : List Instance) :
    ∀ inst ∈ firstById x l,
      l.find? (fun other => decide (x.Id other = x.Id inst)) = some inst := by
  induction l with
  | nil => intro inst h; cases h
  | cons a rest ih =>
    intro inst h
    simp only [firstById, List.mem_cons, List.mem_filter] at h
    rcases h with h | ⟨h1, h2⟩
    · subst h
      simp
    · have hne : ¬ x.Id a = x.Id inst := by
        intro e
        simp [e] at h2
      simp [List.find?_cons, hne, ih inst h1]

end AzureLemmas

section AzureClaims

variable {σ Descriptor CertFile Instance : Type}

/-- C8: when the management API is acquired, `StopInstances` sends one
`DestroyHostedService` request per instance, in the order of the list, each
whatever the ones before answered, and returns the error of the first
request that failed, nil when none failed; for a list that is not empty the
requests stand between the acquisition and the release of the API; for the
empty list it returns nil and does nothing: the API is not acquired. -/
theorem StopInstances_first_error (x : Externals σ Descriptor CertFile Instance)
    (env : azureEnviron) (instances : List Instance) (s : σ)
    (context : azureManagementContext σ Descriptor CertFile) (acquired : List Effect)
    (hapi : getManagementAPI x env = (Except.ok context, acquired)) :
    destroyRequestsOf (StopInstances x env instances s).effects =
      instances.map (fun inst => { ServiceName := x.Id inst }) ∧
    (StopInstances x env instances s).value =
      firstFailure (destroyOutcomes context.ManagementAPI
        (instances.map (fun inst => { ServiceName := x.Id inst })) s) ∧
    (destroyOutcomes context.ManagementAPI
        (instances.map (fun inst => { ServiceName := x.Id inst })) s).length = instances.length ∧
    (instances ≠ [] →
      (StopInstances x env instances s).effects =
        acquired ++
          (instances.map (fun inst => Effect.DestroyHostedService { ServiceName := x.Id inst })) ++
          releaseManagementAPI x (some context)) ∧
    StopInstances x env [] s = { value := none, effects := [], state := s } := by
  have hreq : (fun inst => ({ ServiceName := x.Id inst } : DestroyHostedServiceRequest)) =
      destroyRequest x := rfl
  have hacq : destroyRequestsOf acquired = [] := by
    have h := destroyRequestsOf_getManagementAPI x env
    rw [hapi] at h
    exact h
  have hempty : StopInstances x env [] s = { value := none, effects := [], state := s } := by
    simp [StopInstances]
  refine ⟨?_, ?_, ?_, ?_, hempty⟩
  · cases instances with
    | nil => rw [hempty]; rfl
    | cons inst rest =>
      simp [StopInstances, hapi, stopLoop_eq, destroyRequestsOf_append, hacq,
        destroyRequestsOf_releaseManagementAPI, destroyRequestsOf, hreq]
      rw [← List.map_map, destroyRequestsOf_map]
  · cases instances with
    | nil => rw [hempty]; rfl
    | cons inst rest => simp [StopInstances, hapi, stopLoop_eq, hreq, firstFailure]
  · simp [destroyOutcomes_length]
  · intro hne
    have hlen : ¬ instances.length = 0 := fun h => hne (List.length_eq_zero.mp h)
    simp [StopInstances, hlen, hapi, stopLoop_eq, destroyRequest, List.map_map,
      Function.comp_def]

/-- C8 at a concrete account with the services a, b and c: of the four
instances a, ghost, b and ghost2 the second and the fourth fail, all four
requests are sent and the error is that of ghost. -/
theorem StopInstances_first_error_witness :
    getManagementAPI listExternals testEnviron =
        (Except.ok listContext, [Effect.newTempCertFile "cert"]) ∧
    (destroyRequestsOf (StopInstances listExternals testEnviron ["a", "ghost", "b", "ghost2"]
        ["a", "b", "c"]).effects =
      [{ ServiceName := "a" }, { ServiceName := "ghost" }, { ServiceName := "b" },
       { ServiceName := "ghost2" }] ∧
    (StopInstances listExternals testEnviron ["a", "ghost", "b", "ghost2"]
        ["a", "b", "c"]).value =
      firstFailure [none, some (GoError.New "no service ghost"), none,
        some (GoError.New "no service ghost2")] ∧
    (destroyOutcomes listContext.ManagementAPI
        (["a", "ghost", "b", "ghost2"].map (fun inst => { ServiceName := listExternals.Id inst }))
        ["a", "b", "c"]).length = ["a", "ghost", "b", "ghost2"].length ∧
    (["a", "ghost", "b", "ghost2"] ≠ [] →
      (StopInstances listExternals testEnviron ["a", "ghost", "b", "ghost2"]
          ["a", "b", "c"]).effects =
        [Effect.newTempCertFile "cert"] ++
          [Effect.DestroyHostedService { ServiceName := "a" },
           Effect.DestroyHostedService { ServiceName := "ghost" },
           Effect.DestroyHostedService { ServiceName := "b" },
           Effect.DestroyHostedService { ServiceName := "ghost2" }] ++
          [Effect.certFileDelete "/tmp/cert"]) ∧
    StopInstances listExternals testEnviron [] ["a", "b", "c"] =
      { value := none, effects := [], state := ["a", "b", "c"] }) :=
  ⟨rfl,
    StopInstances_first_error listExternals testEnviron ["a", "ghost", "b", "ghost2"]
      ["a", "b", "c"] listContext [Effect.newTempCertFile "cert"] rfl⟩

/-- C9: when the management API is acquired and the listing succeeds,
`Instances` returns no instance and `ErrNoInstances` when no service was
found; otherwise it returns one instance per service found, in the order of
the listing, with `ErrPartialInstances` when their number differs from the
number of ids asked for and with a nil error when the numbers are equal. -/
theorem Instances_partial_or_none (x : Externals σ Descriptor CertFile Instance)
    (env : azureEnviron) (ids : List String) (s s2 : σ)
    (context : azureManagementContext σ Descriptor CertFile) (acquired : List Effect)
    (services : List Descriptor)
    (hapi : getManagementAPI x env = (Except.ok context, acquired))
    (hlist : context.ManagementAPI.ListSpecificHostedServices { ServiceNames := ids } s =
      (Except.ok services, s2)) :
    (services = [] →
      (Instances x env ids s).value = { instances := [], err := some x.ErrNoInstances }) ∧
    (services ≠ [] →
      (Instances x env ids s).value.instances = services.map x.azureInstance ∧
      (Instances x env ids s).value.instances.length = services.length ∧
      (ids.length ≠ (Instances x env ids s).value.instances.length →
        (Instances x env ids s).value.err = some x.ErrPartialInstances) ∧
      (ids.length = (Instances x env ids s).value.instances.length →
        (Instances x env ids s).value.err = none)) := by
  constructor
  · intro h
    subst h
    simp [Instances, hapi, hlist]
  · intro h
    have hlen : ¬ services.length = 0 := fun e => h (List.length_eq_zero.mp e)
    by_cases hids : ids.length = services.length
    · simp [Instances, hapi, hlist, hlen, convertToInstances_eq, hids]
    · simp [Instances, hapi, hlist, hlen, convertToInstances_eq, hids]

/-- C9 at a concrete account with the services a, b and c: of the three ids
a, ghost and b two are found, so the result is partial. -/
theorem Instances_partial_or_none_witness :
    (getManagementAPI listExternals testEnviron =
        (Except.ok listContext, [Effect.newTempCertFile "cert"]) ∧
      listContext.ManagementAPI.ListSpecificHostedServices
          { ServiceNames := ["a", "ghost", "b"] } ["a", "b", "c"] =
        (Except.ok ["a", "b"], ["a", "b", "c"])) ∧
    ((["a", "b"] = ([] : List String) →
      (Instances listExternals testEnviron ["a", "ghost", "b"] ["a", "b", "c"]).value =
        { instances := [], err := some listExternals.ErrNoInstances }) ∧
    (["a", "b"] ≠ ([] : List String) →
      (Instances listExternals testEnviron ["a", "ghost", "b"] ["a", "b", "c"]).value.instances =
        ["a", "b"].map listExternals.azureInstance ∧
      (Instances listExternals testEnviron ["a", "ghost", "b"]
        ["a", "b", "c"]).value.instances.length = ["a", "b"].length ∧
      (["a", "ghost", "b"].length ≠
          (Instances listExternals testEnviron ["a", "ghost", "b"]
            ["a", "b", "c"]).value.instances.length →
        (Instances listExternals testEnviron ["a", "ghost", "b"] ["a", "b", "c"]).value.err =
          some listExternals.ErrPartialInstances) ∧
      (["a", "ghost", "b"].length =
          (Instances listExternals testEnviron ["a", "ghost", "b"]
            ["a", "b", "c"]).value.instances.length →
        (Instances listExternals testEnviron ["a", "ghost", "b"] ["a", "b", "c"]).value.err =
          none))) :=
  ⟨⟨rfl, rfl⟩,
    Instances_partial_or_none listExternals testEnviron ["a", "ghost", "b"] ["a", "b", "c"]
      ["a", "b", "c"] listContext [Effect.newTempCertFile "cert"] ["a", "b"] rfl rfl⟩

/-- C11: when the storage cleanup and `AllInstances` succeed, `Destroy`
hands to `StopInstances` the result of `AllInstances`, in order, followed
by the instances to ensure whose id did not show up in that result, each
such id once, at its first occurrence, in the order of `ensureInsts`:
every id of `ensureInsts` occurs in the list, the appended ids do not
repeat and none of them is an id of the result of `AllInstances`. -/
theorem Destroy_stops_listed_then_missing (x : Externals σ Descriptor CertFile Instance)
    (env : azureEnviron) (st : azureStorage σ) (context : StorageContext σ)
    (ensureInsts insts : List Instance) (s s2 : σ)
    (hcontext : st.getStorageContext = Except.ok context)
    (hblobs : context.DeleteAllBlobs { Container := st.getContainer } s = (none, s2))
    (hall : (AllInstances x env s2).value = { instances := insts, err := none }) :
    Destroy x env (some st) ensureInsts s =
      some
        { value := (StopInstances x env (instancesToStop x insts ensureInsts)
            (AllInstances x env s2).state).value,
          effects := [Effect.DeleteAllBlobs { Container := st.getContainer }] ++
            (AllInstances x env s2).effects ++
            (StopInstances x env (instancesToStop x insts ensureInsts)
              (AllInstances x env s2).state).effects,
          state := (StopInstances x env (instancesToStop x insts ensureInsts)
            (AllInstances x env s2).state).state } ∧
    instancesToStop x insts ensureInsts = insts ++ missingInstances x insts ensureInsts ∧
    List.Sublist (missingInstances x insts ensureInsts) ensureInsts ∧
    (∀ inst ∈ missingInstances x insts ensureInsts,
      x.Id inst ∉ insts.map x.Id ∧
      ensureInsts.find? (fun other => decide (x.Id other = x.Id inst)) = some inst) ∧
    (∀ inst ∈ ensureInsts, x.Id inst ∉ insts.map x.Id →
      x.Id inst ∈ (missingInstances x insts ensureInsts).map x.Id) ∧
    ((missingInstances x insts ensureInsts).map x.Id).Nodup ∧
    (∀ inst ∈ ensureInsts, x.Id inst ∈ (instancesToStop x insts ensureInsts).map x.Id) := by
  have hsub : List.Sublist (missingInstances x insts ensureInsts)
      (ensureInsts.filter (fun inst => decide (x.Id inst ∉ insts.map x.Id))) :=
    firstById_sublist x _
  have hcover : ∀ inst ∈ ensureInsts, x.Id inst ∉ insts.map x.Id →
      x.Id inst ∈ (missingInstances x insts ensureInsts).map x.Id := by
    intro inst hin hid
    apply mem_firstById_ids
    exact List.mem_filter.mpr ⟨hin, by simpa using hid⟩
  refine ⟨?_, instancesToStop_eq x insts ensureInsts, hsub.trans (List.filter_sublist _),
    ?_, hcover, nodup_firstById_ids x _, ?_⟩
  · simp [Destroy, hcontext, hblobs, hall]
  · intro inst hin
    have hmem := List.mem_filter.mp (hsub.subset hin)
    have hid : x.Id inst ∉ insts.map x.Id := by simpa using hmem.2
    refine ⟨hid, ?_⟩
    have hfind := find_firstById x _ inst hin
    rw [List.find?_filter] at hfind
    rw [← hfind]
    apply find_congr_of_mem
    intro other _
    by_cases ho : x.Id other = x.Id inst
    · simp only [ho, decide_True, Bool.and_true]
      simpa using hid
    · simp [ho]
  · intro inst hin
    rw [instancesToStop_eq, List.map_append, List.mem_append]
    by_cases hid : x.Id inst ∈ insts.map x.Id
    · exact Or.inl hid
    · exact Or.inr (hcover inst hin hid)

/-- C11 at a concrete account with the services a and b: of the instances
to ensure b, new, new, x, a, x the ids new and x did not show up, so the
list handed to `StopInstances` is a, b, new, x. -/
theorem Destroy_stops_listed_then_missing_witness :
    (listStorage.getStorageContext = Except.ok listStorageContext ∧
      listStorageContext.DeleteAllBlobs { Container := listStorage.getContainer } ["a", "b"] =
        (none, ["a", "b"]) ∧
      (AllInstances listAllExternals testEnviron ["a", "b"]).value =
        { instances := ["a", "b"], err := none }) ∧
    (Destroy listAllExternals testEnviron (some listStorage)
        ["b", "new", "new", "x", "a", "x"] ["a", "b"] =
      some
        { value := some (GoError.New "no service new"),
          effects :=
            [Effect.DeleteAllBlobs { Container := "container" },
             Effect.newTempCertFile "cert",
             Effect.ListPrefixedHostedServices { ServiceNamePrefix := "juju-test" },
             Effect.certFileDelete "/tmp/cert",
             Effect.newTempCertFile "cert",
             Effect.DestroyHostedService { ServiceName := "a" },
             Effect.DestroyHostedService { ServiceName := "b" },
             Effect.DestroyHostedService { ServiceName := "new" },
             Effect.DestroyHostedService { ServiceName := "x" },
             Effect.certFileDelete "/tmp/cert"],
          state := [] } ∧
    instancesToStop listAllExternals ["a", "b"] ["b", "new", "new", "x", "a", "x"] =
      ["a", "b"] ++ ["new", "x"] ∧
    List.Sublist (missingInstances listAllExternals ["a", "b"]
      ["b", "new", "new", "x", "a", "x"]) ["b", "new", "new", "x", "a", "x"] ∧
    (∀ inst ∈ missingInstances listAllExternals ["a", "b"] ["b", "new", "new", "x", "a", "x"],
      listAllExternals.Id inst ∉ ["a", "b"].map listAllExternals.Id ∧
      ["b", "new", "new", "x", "a", "x"].find?
        (fun other => decide (listAllExternals.Id other = listAllExternals.Id inst)) =
        some inst) ∧
    (∀ inst ∈ ["b", "new", "new", "x", "a", "x"],
      listAllExternals.Id inst ∉ ["a", "b"].map listAllExternals.Id →
      listAllExternals.Id inst ∈
        (missingInstances listAllExternals ["a", "b"]
          ["b", "new", "new", "x", "a", "x"]).map listAllExternals.Id) ∧
    ((missingInstances listAllExternals ["a", "b"]
      ["b", "new", "new", "x", "a", "x"]).map listAllExternals.Id).Nodup ∧
    (∀ inst ∈ ["b", "new", "new", "x", "a", "x"],
      listAllExternals.Id inst ∈
        (instancesToStop listAllExternals ["a", "b"]
          ["b", "new", "new", "x", "a", "x"]).map listAllExternals.Id)) :=
  ⟨⟨rfl, rfl, rfl⟩,
    Destroy_stops_listed_then_missing listAllExternals testEnviron listStorage
      listStorageContext ["b", "new", "new", "x", "a", "x"] ["a", "b"] ["a", "b"] ["a", "b"]
      rfl rfl rfl⟩

end AzureClaims

end Azure
